import Mathlib

/-!
# SawitDB storage-and-execution core — a shallow embedding

This file embeds the data model and the operations of the SawitDB engine
(`SawitDB` class, file `src/unnamed/part_001`) in Lean 4 and settles the
frozen claims C1–C10 about them.

Modelling conventions, used throughout:

* JavaScript record values (`string | number | boolean | null`) become the
  `Value` inductive; record numbers are modelled as integers (`Int`), which
  covers every record any claim touches.
* A JavaScript object is an ordered property list; each property carries an
  `enum` flag modelling JS enumerability.  `Object.defineProperty(o, k,
  {enumerable:false})` is `JSObj.defineHidden`; plain assignment is
  `JSObj.set`; the object spread `{...o}` and `JSON.stringify` see only
  enumerable properties (`JSObj.stripHidden`, `JSObj.jsonStringify`).
* A heap page stores its `next` pointer and the list of length-prefixed
  record runs (`StoredRec`: the `u16` length prefix plus the parse of the
  run, `none` when the bytes do not parse as JSON).  `recordCount` and
  `freeOffset` of a consistent page are the derived `Page.count` and
  `Page.freeOffset`.
* The pager is the page list indexed by page id (slot 0 stands for the
  catalog page); `allocPage` appends a fresh empty heap page, so
  `totalPages` is the list length, as in the `Pager` class of
  `src/src/WowoEngine.js`.
* Loops that walk the `next`-pointer chain take an explicit `fuel`
  argument; every theorem either quantifies over the fuel or instantiates
  it large enough for the chain at hand, exactly as the JS loop runs.
* Serialized lengths are counted in characters; every record any claim
  touches is plain ASCII, where JS `Buffer.byteLength` agrees.
-/

deriving instance DecidableEq for Except

namespace SawitDB

/-- A record field value: JS `string | number | boolean | null`; numbers are
modelled as integers. -/
inductive Value where
  | vNull : Value
  | vBool : Bool → Value
  | vNum  : Int → Value
  | vStr  : String → Value
deriving DecidableEq, Repr

/-- One property of a JS object: name, value, and the JS enumerability
flag. -/
structure JSProp where
  name : String
  value : Value
  enum : Bool
deriving DecidableEq, Repr

/-- A JS object: its ordered own-property list. -/
structure JSObj where
  props : List JSProp
deriving DecidableEq, Repr

/-- JS property read `o[k]`: sees every own property, enumerable or not;
`none` models `undefined`. -/
def JSObj.get (o : JSObj) (k : String) : Option Value :=
  (o.props.find? (fun p => p.name == k)).map (fun p => p.value)

/-- JS assignment `o[k] = v`: updates an existing property in place keeping
its flags, otherwise appends a new enumerable property. -/
def JSObj.set (o : JSObj) (k : String) (v : Value) : JSObj :=
  if o.props.any (fun p => p.name == k) then
    ⟨o.props.map (fun p => if p.name == k then { p with value := v } else p)⟩
  else ⟨o.props ++ [⟨k, v, true⟩]⟩

/-- `Object.defineProperty(o, k, {value, enumerable:false, writable:true})`:
redefines the property as non-enumerable, or appends it as such. -/
def JSObj.defineHidden (o : JSObj) (k : String) (v : Value) : JSObj :=
  if o.props.any (fun p => p.name == k) then
    ⟨o.props.map (fun p => if p.name == k then ⟨k, v, false⟩ else p)⟩
  else ⟨o.props ++ [⟨k, v, false⟩]⟩

/-- The enumerable part of an object: what `{...o}`, `for..in` and
`JSON.stringify` see, and what `JSON.parse` of the serialization yields. -/
def JSObj.stripHidden (o : JSObj) : JSObj :=
  ⟨o.props.filter (fun p => p.enum)⟩

/-- The enumerable key list of an object (its visible columns). -/
def JSObj.enumKeys (o : JSObj) : List String :=
  (o.props.filter (fun p => p.enum)).map (fun p => p.name)

/-- JSON rendering of one value.  String escaping is not modelled: every
string any claim touches is free of quotes and backslashes. -/
def Value.jsonStr : Value → String
  | .vNull => "null"
  | .vBool true => "true"
  | .vBool false => "false"
  | .vNum n => toString n
  | .vStr s => "\"" ++ s ++ "\""

/-- `JSON.stringify(o)`: the enumerable properties, in insertion order. -/
def JSObj.jsonStringify (o : JSObj) : String :=
  "\x7b" ++
    String.intercalate ","
      ((o.props.filter (fun p => p.enum)).map
        (fun p => "\"" ++ p.name ++ "\":" ++ p.value.jsonStr)) ++
  "\x7d"

/-- The length of a record's serialization (`Buffer.byteLength` of the
JSON; characters = bytes on the ASCII records the claims touch). -/
def JSObj.serLen (o : JSObj) : Nat := o.jsonStringify.length

/-- Decimal digits to a number; `none` on a non-digit or an empty run. -/
def digitsToNat? : List Char → Option Nat
  | [] => none
  | cs => go cs 0
where
  go : List Char → Nat → Option Nat
  | [], acc => some acc
  | c :: rest, acc =>
    if '0' ≤ c && c ≤ '9' then go rest (acc * 10 + (c.toNat - '0'.toNat))
    else none

/-- Optional-sign decimal integer parsing (the shapes of JS numeric
strings the claims touch). -/
def strToInt? (s : String) : Option Int :=
  match s.data with
  | '-' :: rest => (digitsToNat? rest).map (fun n => -(n : Int))
  | '+' :: rest => (digitsToNat? rest).map (fun n => (n : Int))
  | l => (digitsToNat? l).map (fun n => (n : Int))

/-- Models JS `Number(x)` on a possibly-undefined record value; `none`
models `NaN`.  String parsing is modelled for optional-sign decimal integer
literals (the only numeric strings the claims touch); the empty string
coerces to `0` as in JS. -/
def jsToNumber : Option Value → Option Int
  | none => none
  | some .vNull => some 0
  | some (.vBool b) => some (if b then 1 else 0)
  | some (.vNum n) => some n
  | some (.vStr s) => if s = "" then some 0 else strToInt? s

/-- Models JS `String(x)` on a possibly-undefined record value. -/
def jsToString : Option Value → String
  | none => "undefined"
  | some .vNull => "null"
  | some (.vBool true) => "true"
  | some (.vBool false) => "false"
  | some (.vNum n) => toString n
  | some (.vStr s) => s

/-- Models the JS relational `<` on record values: two strings compare
lexicographically, otherwise both sides coerce through `Number` and a `NaN`
side makes the comparison false. -/
def jsLtB (a b : Option Value) : Bool :=
  match a, b with
  | some (.vStr x), some (.vStr y) => decide (x < y)
  | _, _ =>
    match jsToNumber a, jsToNumber b with
    | some x, some y => decide (x < y)
    | _, _ => false

/-- Models the JS relational `>` (see `jsLtB`). -/
def jsGtB (a b : Option Value) : Bool :=
  match a, b with
  | some (.vStr x), some (.vStr y) => decide (y < x)
  | _, _ =>
    match jsToNumber a, jsToNumber b with
    | some x, some y => decide (y < x)
    | _, _ => false

/-- Models the JS relational `<=` (not the negation of `>`: a `NaN` side
makes it false). -/
def jsLeB (a b : Option Value) : Bool :=
  match a, b with
  | some (.vStr x), some (.vStr y) => decide (x ≤ y)
  | _, _ =>
    match jsToNumber a, jsToNumber b with
    | some x, some y => decide (x ≤ y)
    | _, _ => false

/-- Models the JS relational `>=` (see `jsLeB`). -/
def jsGeB (a b : Option Value) : Bool :=
  match a, b with
  | some (.vStr x), some (.vStr y) => decide (y ≤ x)
  | _, _ =>
    match jsToNumber a, jsToNumber b with
    | some x, some y => decide (y ≤ x)
    | _, _ => false

/-- Models JS loose equality `==` on possibly-undefined record values:
`undefined`/`null` equal each other and nothing else; two strings compare
as strings; otherwise both sides coerce through `Number`. -/
def jsLooseEq (a b : Option Value) : Bool :=
  match a, b with
  | none, none => true
  | none, some .vNull => true
  | some .vNull, none => true
  | none, some _ => false
  | some _, none => false
  | some .vNull, some .vNull => true
  | some .vNull, some _ => false
  | some _, some .vNull => false
  | some (.vStr x), some (.vStr y) => x == y
  | some x, some y =>
    match jsToNumber (some x), jsToNumber (some y) with
    | some m, some n => m == n
    | _, _ => false

/-! ## LIKE patterns

The engine realizes `LIKE` through the Node `RegExp` engine, which is
outside the repository; its semantics for the pattern shapes the two code
paths build is modelled by the token matcher below.  A token is a literal
character, the regex `.` (exactly one character), or the regex `.*` (any
sequence).  The `i` flag is modelled by lowercasing both sides. -/

/-- One token of the compiled anchored regex. -/
inductive RTok where
  | lit : Char → RTok
  | one : RTok
  | star : RTok
deriving DecidableEq, Repr

/-- Anchored matching of a token list against a character list, with a
step budget: every step shrinks the pattern length plus the text length,
so `rmatch` below always supplies enough fuel and the `0` case is never
reached. -/
def rmatchF : Nat → List RTok → List Char → Bool
  | 0, _, _ => false
  | fuel + 1, ps, vs =>
    match ps, vs with
    | [], [] => true
    | [], _ :: _ => false
    | .lit _ :: _, [] => false
    | .lit c :: ps', v :: vs' => c == v && rmatchF fuel ps' vs'
    | .one :: _, [] => false
    | .one :: ps', _ :: vs' => rmatchF fuel ps' vs'
    | .star :: ps', [] => rmatchF fuel ps' []
    | .star :: ps', v :: vs' =>
      rmatchF fuel ps' (v :: vs') || rmatchF fuel (.star :: ps') vs'

/-- Anchored matching of a token list against a character list — the
standard semantics of `^…$` regexes built from literals, `.` and `.*`. -/
def rmatch (ps : List RTok) (vs : List Char) : Bool :=
  rmatchF (ps.length + vs.length + 1) ps vs

/-- Embeds the LIKE compilation of `_checkSingleCondition`
(src/unnamed/part_001 lines 529–535): every regex metacharacter is escaped
first, then `%` becomes `.*` and `_` becomes `.`; so every pattern
character other than `%` and `_` matches itself literally. -/
def likeTokensEscaped (pattern : String) : List RTok :=
  pattern.data.map (fun c =>
    if c == '%' then .star else if c == '_' then .one else .lit c.toLower)

/-- Embeds the inlined LIKE fast path of `_scanTable`
(src/unnamed/part_001 lines 832–834): `%` becomes `.*` and `_` becomes `.`
with NO escaping, so a `.` in the pattern stays the regex any-character.
Modelled for patterns whose only regex metacharacter is `.` — which is all
the theorems below use. -/
def likeTokensFast (pattern : String) : List RTok :=
  pattern.data.map (fun c =>
    if c == '%' then .star else if c == '_' then .one
    else if c == '.' then .one else .lit c.toLower)

/-- Case-insensitive anchored test (`new RegExp('^…$', 'i').test s`). -/
def regexTestI (toks : List RTok) (s : String) : Bool :=
  rmatch toks (s.data.map Char.toLower)

/-! ## Criteria and predicate evaluation -/

/-- The value slot of a criteria leaf: a single value, or an array (for
`IN`, `NOT IN`, `BETWEEN`). -/
inductive CVal where
  | single : Value → CVal
  | arr : List Value → CVal
deriving DecidableEq, Repr

/-- A criteria tree as the parser produces it: a `{key, op, val}` leaf or a
`{type:"compound", logic, conditions}` node. -/
inductive Criteria where
  | leaf : String → String → CVal → Criteria
  | compound : String → List Criteria → Criteria

/-- The single value of a leaf target, `none` when the target is an array
(whose coercions none of the claims touch). -/
def CVal.toOpt : CVal → Option Value
  | .single v => some v
  | .arr _ => none

/-- Embeds `_checkSingleCondition` (src/unnamed/part_001 lines 507–544):
type-aware equality (numeric coercion when either side is a number), the
relational operators, `IN`/`NOT IN`, `LIKE` (escaped, case-insensitive),
inclusive `BETWEEN`, `IS NULL`/`IS NOT NULL`; unknown operators are false.
A non-string `LIKE` target (a JS `TypeError` path no claim touches) is
modelled as false. -/
def checkSingleCondition (obj : JSObj) (key op : String) (target : CVal) : Bool :=
  let val := obj.get key
  match op with
  | "=" =>
    match val, target with
    | some (.vNum _), _ | _, .single (.vNum _) =>
      match jsToNumber val, jsToNumber target.toOpt with
      | some a, some b => a == b
      | _, _ => false
    | _, _ =>
      match val, target with
      | some v, .single t => v == t
      | _, _ => false
  | "!=" =>
    match val, target with
    | some (.vNum _), _ | _, .single (.vNum _) =>
      match jsToNumber val, jsToNumber target.toOpt with
      | some a, some b => a != b
      | _, _ => true
    | _, _ =>
      match val, target with
      | some v, .single t => v != t
      | _, _ => true
  | ">" => jsGtB val target.toOpt
  | "<" => jsLtB val target.toOpt
  | ">=" => jsGeB val target.toOpt
  | "<=" => jsLeB val target.toOpt
  | "IN" =>
    match target, val with
    | .arr xs, some v => xs.any (fun x => x == v)
    | _, _ => false
  | "NOT IN" =>
    match target, val with
    | .arr xs, some v => !xs.any (fun x => x == v)
    | .arr _, none => true
    | _, _ => false
  | "LIKE" =>
    match target with
    | .single (.vStr pat) => regexTestI (likeTokensEscaped pat) (jsToString val)
    | _ => false
  | "BETWEEN" =>
    match target with
    | .arr (lo :: hi :: _) => jsGeB val (some lo) && jsLeB val (some hi)
    | _ => false
  | "IS NULL" => val == none || val == some .vNull
  | "IS NOT NULL" => !(val == none || val == some .vNull)
  | _ => false

mutual

/-- Embeds `_checkMatch` (src/unnamed/part_001 lines 481–505): a compound
node folds its conditions with `||` (seed `false`) when `logic` is `"OR"`
and with `&&` (seed `true`) otherwise, recursing into nested compounds; a
leaf goes to `checkSingleCondition`. -/
def checkMatch (obj : JSObj) : Criteria → Bool
  | .leaf k op v => checkSingleCondition obj k op v
  | .compound logic conds =>
    checkMatchList obj logic conds (if logic == "OR" then false else true)

/-- The fold over a compound node's condition list, accumulator-style as
the source's loop (the short-circuit returns do not change the value). -/
def checkMatchList (obj : JSObj) (logic : String) :
    List Criteria → Bool → Bool
  | [], acc => acc
  | c :: rest, acc =>
    let m := checkMatch obj c
    checkMatchList obj logic rest
      (if logic == "OR" then acc || m else acc && m)

end

/-- `if (!criteria) return true`: a missing criteria matches everything. -/
def checkMatchOpt (criteria : Option Criteria) (obj : JSObj) : Bool :=
  match criteria with
  | none => true
  | some c => checkMatch obj c

/-! ## Pages, catalog, pager -/

/-- The fixed page size (`Pager.PAGE_SIZE`). -/
def PAGE_SIZE : Nat := 4096

/-- One length-prefixed record run on a heap page: the `u16` length prefix
and the parse of the run's bytes (`none` when they do not parse as JSON,
e.g. after a truncating write). -/
structure StoredRec where
  len : Nat
  content : Option JSObj
deriving DecidableEq, Repr

/-- A heap page: the `u32` next-page link (0 = end of chain) and the record
runs tiling the space from offset 8. -/
structure Page where
  next : Nat
  recs : List StoredRec
deriving DecidableEq, Repr

/-- The page's `recordCount` header field of a consistently written page. -/
def Page.count (p : Page) : Nat := p.recs.length

/-- The page's `freeOffset` header field of a consistently written page:
`8 + Σ (2 + len_i)`. -/
def Page.freeOffset (p : Page) : Nat :=
  8 + (p.recs.map (fun r => 2 + r.len)).sum

/-- A fresh empty heap page (`next=0, count=0, freeOffset=8`). -/
def emptyPage : Page := ⟨0, []⟩

/-- `Pager.readPage`: the page list is indexed by page id; reading an
unallocated id yields an empty page. -/
def readPage (pages : List Page) (id : Nat) : Page :=
  pages.getD id emptyPage

/-- `Pager.writePage`. -/
def writePage (pages : List Page) (id : Nat) (p : Page) : List Page :=
  pages.set id p

/-- `Pager.allocPage` (class `Pager`, src/src/WowoEngine.js): the new id is
`totalPages` — the current length — and the new page starts empty. -/
def allocPage (pages : List Page) : List Page × Nat :=
  (pages ++ [emptyPage], pages.length)

/-- Modelled from the spec: `Pager.readPageObjects` (the module
src/modules/Pager is not under src/) — decodes a heap page into its next
link and its record list, skipping runs that do not parse, exactly as the
in-source decode loops of `_delete` and `_update` do (§4.1 of the spec). -/
def readPageObjects (pages : List Page) (id : Nat) : Nat × List JSObj :=
  let p := readPage pages id
  (p.next, p.recs.filterMap (fun r => r.content))

/-- A catalog entry: `startPage` and `lastPage` of a table. -/
structure TableEntry where
  startPage : Nat
  lastPage : Nat
deriving DecidableEq, Repr

/-- Modelled from the spec: the `BTreeIndex` module is not under src/; per
§4.5 it is an ordered key → record-list map.  The bucket list models it;
key order is irrelevant to every claim. -/
structure BIndex where
  buckets : List (Value × List JSObj)
deriving DecidableEq, Repr

/-- Modelled from the spec: `search(key)` returns the records whose index
field equals the key. -/
def BIndex.search (ix : BIndex) (k : Value) : List JSObj :=
  match ix.buckets.find? (fun b => b.1 == k) with
  | some b => b.2
  | none => []

/-- Modelled from the spec: `insert(key, record)` appends the record to the
bucket at the key. -/
def BIndex.insert (ix : BIndex) (k : Value) (r : JSObj) : BIndex :=
  if ix.buckets.any (fun b => b.1 == k) then
    ⟨ix.buckets.map (fun b => if b.1 == k then (b.1, b.2 ++ [r]) else b)⟩
  else ⟨ix.buckets ++ [(k, [r])]⟩

/-- Modelled from the spec: `delete(key)` removes one entry of the bucket
at the key, removing the key when the bucket empties. -/
def BIndex.erase (ix : BIndex) (k : Value) : BIndex :=
  ⟨(ix.buckets.map (fun b => if b.1 == k then (b.1, b.2.tail) else b)).filter
    (fun b => !b.2.isEmpty)⟩

/-- The event-sink calls the engine makes (`DBEvent` hooks). -/
inductive Ev where
  | created (table : String)
  | dropped (table : String)
  | inserted (table : String) (recs : List JSObj)
  | updated (table : String) (recs : List JSObj)
  | deleted (table : String) (recs : List JSObj)
  | selected (table : String) (recs : List JSObj)
deriving DecidableEq, Repr

/-- The engine state a query handles: the page list, the catalog (name →
entry), the in-memory indexes keyed `"table.field"`, and the trace of
event-sink calls made so far. -/
structure DB where
  pages : List Page
  tables : List (String × TableEntry)
  indexes : List (String × BIndex)
  events : List Ev
deriving DecidableEq, Repr

/-- `_findTableEntry` over the modelled catalog. -/
def findTableEntry (db : DB) (name : String) : Option TableEntry :=
  (db.tables.find? (fun t => t.1 == name)).map (fun t => t.2)

/-- `this.indexes.get(indexKey)` with `this.indexes.has` as `isSome`. -/
def lookupIndex (ixs : List (String × BIndex)) (key : String) : Option BIndex :=
  (ixs.find? (fun i => i.1 == key)).map (fun i => i.2)

/-! ## Table scan (`_scanTable`) -/

/-- JS truthiness of an optional numeric argument: `0`, like `undefined`,
is falsy (`if (limit)`, `limit || Infinity`). -/
def optTruthy : Option Nat → Option Nat
  | some (n + 1) => some (n + 1)
  | _ => none

/-- Whether `results.length >= effectiveLimit` (with `none` = Infinity). -/
def limReached (lim : Option Nat) (n : Nat) : Bool :=
  match lim with
  | some m => m ≤ n
  | none => false

/-- Embeds the inlined per-record match of `_scanTable`
(src/unnamed/part_001 lines 808–840): a simple `{key, op, val}` criteria
with truthy key and op dispatches on an inline switch — loose `==`/`!=`,
the relationals, and the UNESCAPED `LIKE` regex — and every other shape
falls back to `_checkMatch`. -/
def scanMatches (criteria : Option Criteria) (obj : JSObj) : Bool :=
  match criteria with
  | none => true
  | some cr =>
    match cr with
    | .leaf k op v =>
      if k != "" && op != "" then
        let val := obj.get k
        match op with
        | "=" => jsLooseEq val v.toOpt
        | ">" => jsGtB val v.toOpt
        | "<" => jsLtB val v.toOpt
        | ">=" => jsGeB val v.toOpt
        | "<=" => jsLeB val v.toOpt
        | "!=" => !jsLooseEq val v.toOpt
        | "LIKE" =>
          match v with
          | .single (.vStr pat) => regexTestI (likeTokensFast pat) (jsToString val)
          | _ => false
        | _ => checkMatch obj cr
      else checkMatch obj cr
    | .compound _ _ => checkMatch obj cr

/-- The inner record loop of `_scanTable`: stops when the effective limit
is reached; a raw scan attaches the non-enumerable `_pageId` hint to each
returned record. -/
def scanItems (criteria : Option Criteria) (effLimit : Option Nat)
    (raw : Bool) (pid : Nat) : List JSObj → List JSObj → List JSObj
  | [], acc => acc
  | obj :: rest, acc =>
    if limReached effLimit acc.length then acc
    else
      let acc' :=
        if scanMatches criteria obj then
          acc ++ [if raw then obj.defineHidden "_pageId" (.vNum pid) else obj]
        else acc
      scanItems criteria effLimit raw pid rest acc'

/-- The page loop of `_scanTable`: follows the next-pointer chain while
pages remain and the limit is not reached. -/
def scanPagesGo (pages : List Page) (criteria : Option Criteria)
    (effLimit : Option Nat) (raw : Bool) :
    Nat → Nat → List JSObj → List JSObj
  | 0, _, acc => acc
  | fuel + 1, pid, acc =>
    if pid == 0 || limReached effLimit acc.length then acc
    else
      let po := readPageObjects pages pid
      let acc' := scanItems criteria effLimit raw pid po.2 acc
      scanPagesGo pages criteria effLimit raw fuel po.1 acc'

/-- Embeds `_scanTable` (src/unnamed/part_001 lines 802–861). -/
def scanTable (pages : List Page) (entry : TableEntry)
    (criteria : Option Criteria) (limit : Option Nat) (raw : Bool) :
    List JSObj :=
  scanPagesGo pages criteria (optTruthy limit) raw (pages.length + 1)
    entry.startPage []

/-! ## Sort, limit/offset, SELECT access path -/

/-- An ORDER BY request: `{key, dir}`. -/
structure SortSpec where
  key : String
  dir : String
deriving DecidableEq, Repr

/-- The comparator of `_select`'s sort (src/unnamed/part_001 lines
777–785) as a not-after test: `a` may stay before `b` iff the comparator
does not return a positive number on `(a, b)`. -/
def jsSortLe (s : SortSpec) (a b : JSObj) : Bool :=
  let va := a.get s.key
  let vb := b.get s.key
  if jsLtB va vb then s.dir == "asc"
  else if jsGtB va vb then !(s.dir == "asc")
  else true

/-- Stable insertion into a sorted list: the new element goes after every
element it need not precede. -/
def sortedInsert (le : JSObj → JSObj → Bool) (x : JSObj) :
    List JSObj → List JSObj
  | [] => [x]
  | y :: ys => if le y x then y :: sortedInsert le x ys else x :: y :: ys

/-- Models the stable `Array.prototype.sort` call of `_select` (no sort
request leaves the rows untouched). -/
def jsSort (srt : Option SortSpec) (rs : List JSObj) : List JSObj :=
  match srt with
  | none => rs
  | some s => rs.foldr (sortedInsert (jsSortLe s)) []

/-- Embeds the limit/offset step of `_select` (src/unnamed/part_001 lines
787–795): JS `slice(start, end)` after the source's clamping, with falsy
offset and limit ignored. -/
def sliceJS (results : List JSObj) (offsetC limit : Option Nat) :
    List JSObj :=
  let start1 := match optTruthy offsetC with
    | some o => o
    | none => 0
  let end1 := match optTruthy limit with
    | some l => start1 + l
    | none => results.length
  let end2 := min end1 results.length
  let start2 := min start1 results.length
  (results.drop start2).take (end2 - start2)

/-- Whether the no-joins `_select` takes the index probe: `criteria &&
criteria.op === '=' && !sort` and the index exists (src/unnamed/part_001
lines 755–772).  A compound criteria has no `.op` and never probes. -/
def selectUsesIndex (ixs : List (String × BIndex)) (table : String)
    (criteria : Option Criteria) (srt : Option SortSpec) : Bool :=
  match criteria with
  | some (.leaf k "=" _) =>
    srt == none && (lookupIndex ixs (table ++ "." ++ k)).isSome
  | _ => false

/-- Embeds the joins-empty branch of `_select` (src/unnamed/part_001 lines
755–798): index probe for an equality on an indexed field with no sort,
else a scan with the limit pushed down only when no sort is requested;
then sort, then slice.  The `OnTableSelected` hook only observes the
result and is not modelled here. -/
def selectNoJoins (ixs : List (String × BIndex)) (pages : List Page)
    (table : String) (entry : TableEntry) (criteria : Option Criteria)
    (srt : Option SortSpec) (limit offsetC : Option Nat) : List JSObj :=
  let scanLimit := if srt == none then limit else none
  let results :=
    match criteria with
    | some (.leaf k "=" v) =>
      if srt == none then
        match lookupIndex ixs (table ++ "." ++ k) with
        | some ix =>
          match v.toOpt with
          | some key => ix.search key
          | none => []
        | none => scanTable pages entry criteria scanLimit false
      else scanTable pages entry criteria scanLimit false
    | _ => scanTable pages entry criteria scanLimit false
  sliceJS (jsSort srt results) offsetC limit

/-- The requested offset, 0 when absent. -/
def jsOffsetAmount : Option Nat → Nat
  | some o => o
  | none => 0

/-- Spec-side evaluation for the refinement claim C4, following the spec's
words: scan all matching records in page order, apply the (stable) sort,
then offset and limit — rows `O .. O+L-1` of the sorted matching
sequence. -/
def selectNaiveSpec (pages : List Page) (entry : TableEntry)
    (criteria : Option Criteria) (srt : Option SortSpec)
    (limit offsetC : Option Nat) : List JSObj :=
  let all := jsSort srt (scanTable pages entry criteria none false)
  let afterOff := all.drop (jsOffsetAmount offsetC)
  match limit with
  | some l => afterOff.take l
  | none => afterOff

/-! ## Index maintenance and page hints -/

/-- The run of characters before the first `.` and the remainder after
it. -/
def splitDot : List Char → List Char × List Char
  | [] => ([], [])
  | c :: rest =>
    if c == '.' then ([], rest)
    else
      let r := splitDot rest
      (c :: r.1, r.2)

/-- The `[tbl, field] = indexKey.split('.')` destructuring: the segment
before the first dot and the segment between the first and second dots
(index keys are always `table.field`). -/
def splitIndexKey (key : String) : String × String :=
  let p1 := splitDot key.data
  let p2 := splitDot p1.2
  (String.mk p1.1, String.mk p2.1)

/-- Embeds `_updateIndexes` (src/unnamed/part_001 lines 455–479): for each
index of the table, removes the old value when present and changed (or on
delete), and inserts the new value when present and changed (or on
insert).  Presence is `hasOwnProperty` — it sees the hidden hint too. -/
def updateIndexes (table : String) (newObj oldObj : Option JSObj)
    (ixs : List (String × BIndex)) : List (String × BIndex) :=
  ixs.map (fun i =>
    let tf := splitIndexKey i.1
    if tf.1 != table then i
    else
      let field := tf.2
      let oldV := oldObj.bind (fun o => o.get field)
      let newV := newObj.bind (fun o => o.get field)
      let ix1 :=
        match oldObj with
        | some o =>
          if (o.get field).isSome &&
              (newObj.isNone || !(newV == oldV)) then
            match o.get field with
            | some v => i.2.erase v
            | none => i.2
          else i.2
        | none => i.2
      let ix2 :=
        match newObj with
        | some o =>
          if (o.get field).isSome &&
              (oldObj.isNone || !(newV == oldV)) then
            match o.get field with
            | some v => ix1.insert v o
            | none => ix1
          else ix1
        | none => ix1
      (i.1, ix2))

/-- Embeds `_removeFromIndexes` (src/unnamed/part_001 lines 959–966). -/
def removeFromIndexes (table : String) (data : JSObj)
    (ixs : List (String × BIndex)) : List (String × BIndex) :=
  ixs.map (fun i =>
    let tf := splitIndexKey i.1
    if tf.1 == table then
      match data.get tf.2 with
      | some v => (i.1, i.2.erase v)
      | none => i
    else i)

/-- Embeds the index page-hint probe shared by `_delete` and `_update`
(src/unnamed/part_001 lines 867–881 and 972–983): a simple equality
criteria with truthy key, an index on that field, a non-empty search
result whose first record carries a defined `_pageId` — that page id. -/
def computeHint (ixs : List (String × BIndex)) (table : String)
    (criteria : Option Criteria) : Option Nat :=
  match criteria with
  | some (.leaf k "=" v) =>
    if k != "" then
      match lookupIndex ixs (table ++ "." ++ k) with
      | some ix =>
        match v.toOpt with
        | some key =>
          match (ix.search key).head? with
          | some r0 =>
            match r0.get "_pageId" with
            | some (.vNum pid) => some pid.toNat
            | _ => none
          | none => none
        | none => none
      | none => none
    else none
  | _ => none

/-! ## INSERT (`_insert` / `_insertMany`) -/

/-- `_updateTableLastPage` (src/unnamed/part_001 lines 362–370). -/
def updateTableLastPage (tables : List (String × TableEntry))
    (name : String) (pid : Nat) :
    Except String (List (String × TableEntry)) :=
  if tables.any (fun t => t.1 == name) then
    .ok (tables.map (fun t =>
      if t.1 == name then (t.1, { t.2 with lastPage := pid }) else t))
  else .error "Internal Error: Table missing for update"

/-- The running state of the `_insertMany` record loop: the pager state,
the current tail page id, the local page buffer (`pData`) as its next link
and record runs, the running `freeOffset`, whether a page was allocated,
and the processed (hint-carrying) records for the closing event. -/
structure InsSt where
  pages : List Page
  indexes : List (String × BIndex)
  currentPageId : Nat
  bufNext : Nat
  bufRecs : List StoredRec
  freeOffset : Nat
  startPageChanged : Bool
  processed : List JSObj
deriving Repr

/-- Embeds the record loop of `_insertMany` (src/unnamed/part_001 lines
392–440): serialize, allocate-and-link on overflow, write the
length-prefixed run, attach the non-enumerable `_pageId` hint, update the
indexes.  A run that does not fit its page (the source's `Buffer.copy`
silently truncates it) is stored with its full length prefix but
unparseable content. -/
def insertManyGo (table : String) : List JSObj → InsSt → InsSt
  | [], st => st
  | data :: rest, st =>
    let recordLen := data.serLen
    let totalLen := 2 + recordLen
    let st :=
      if PAGE_SIZE < st.freeOffset + totalLen then
        let pages1 := writePage st.pages st.currentPageId
          ⟨st.bufNext, st.bufRecs⟩
        let an := allocPage pages1
        let pages2 := writePage an.1 st.currentPageId
          ⟨an.2, st.bufRecs⟩
        let p := readPage pages2 an.2
        { st with
            pages := pages2, currentPageId := an.2,
            bufNext := p.next, bufRecs := p.recs,
            freeOffset := p.freeOffset, startPageChanged := true }
      else st
    let stored : StoredRec :=
      ⟨recordLen,
        if st.freeOffset + totalLen ≤ PAGE_SIZE then some data.stripHidden
        else none⟩
    let dataH := data.defineHidden "_pageId" (.vNum st.currentPageId)
    let ixs' :=
      if table != "_indexes" then
        updateIndexes table (some dataH) none st.indexes
      else st.indexes
    insertManyGo table rest
      { st with
          bufRecs := st.bufRecs ++ [stored],
          freeOffset := st.freeOffset + totalLen,
          indexes := ixs', processed := st.processed ++ [dataH] }

/-- Embeds `_insertMany` (src/unnamed/part_001 lines 380–453): early
return on an empty batch, the record loop from the tail page, the final
page write, the catalog `lastPage` update when a page was allocated, and
the `OnTableInserted` event. -/
def insertMany (db : DB) (table : String) (dataArray : List JSObj) :
    Except String (DB × String) :=
  if dataArray.isEmpty then .ok (db, "Tidak ada bibit untuk ditanam.")
  else
    match findTableEntry db table with
    | none => .error ("Kebun " ++ table ++ " tidak ditemukan.")
    | some entry =>
      let p := readPage db.pages entry.lastPage
      let st0 : InsSt :=
        ⟨db.pages, db.indexes, entry.lastPage, p.next, p.recs,
          p.freeOffset, false, []⟩
      let st := insertManyGo table dataArray st0
      let pages' := writePage st.pages st.currentPageId
        ⟨st.bufNext, st.bufRecs⟩
      match
        (if st.startPageChanged then
          updateTableLastPage db.tables table st.currentPageId
        else .ok db.tables) with
      | .error e => .error e
      | .ok tables' =>
        .ok ({ pages := pages', tables := tables', indexes := st.indexes,
               events := db.events ++ [.inserted table st.processed] },
             toString dataArray.length ++ " bibit tertanam.")

/-- Embeds `_insert` (src/unnamed/part_001 lines 372–377): rejects a
record with no enumerable keys, then inserts a singleton batch. -/
def insertOne (db : DB) (table : String) (data : JSObj) :
    Except String (DB × String) :=
  if data.enumKeys.isEmpty then
    .error "Data kosong / fiktif? Ini melanggar integritas (Korupsi Data)."
  else insertMany db table [data]

/-! ## DELETE (`_delete`) -/

/-- Embeds the record loop of one page of `_delete` (src/unnamed/part_001
lines 896–921): a run that parses and matches is deleted (and removed from
the table's indexes unless the table is `_indexes`); every other run —
including unparseable ones — is kept byte-for-byte. -/
def deleteItems (table : String) (criteria : Option Criteria) :
    List StoredRec → List StoredRec → List JSObj →
    List (String × BIndex) →
    List StoredRec × List JSObj × List (String × BIndex)
  | [], keep, del, ixs => (keep, del, ixs)
  | r :: rest, keep, del, ixs =>
    match r.content with
    | none => deleteItems table criteria rest (keep ++ [r]) del ixs
    | some obj =>
      if checkMatchOpt criteria obj then
        let ixs' :=
          if table != "_indexes" then removeFromIndexes table obj ixs
          else ixs
        deleteItems table criteria rest keep (del ++ [obj]) ixs'
      else deleteItems table criteria rest (keep ++ [r]) del ixs

/-- Embeds the page loop of `_delete` (src/unnamed/part_001 lines
889–943): a modified page is compacted in place (kept runs packed from
offset 8, headers updated, tail zero-filled) and written back; with a page
hint the loop stops after the hinted page, otherwise it follows the next
link of the (possibly rewritten) buffer. -/
def deleteLoopGo (table : String) (criteria : Option Criteria)
    (hintUsed : Bool) :
    Nat → Nat → List Page → List (String × BIndex) → Nat → List JSObj →
    List Page × List (String × BIndex) × Nat × List JSObj
  | 0, _, pages, ixs, cnt, dd => (pages, ixs, cnt, dd)
  | _ + 1, 0, pages, ixs, cnt, dd => (pages, ixs, cnt, dd)
  | fuel + 1, pid + 1, pages, ixs, cnt, dd =>
    let p := readPage pages (pid + 1)
    let out := deleteItems table criteria p.recs [] [] ixs
    let pages' :=
      if !out.2.1.isEmpty then writePage pages (pid + 1) ⟨p.next, out.1⟩
      else pages
    let cnt' := cnt + out.2.1.length
    let dd' := dd ++ out.2.1
    if hintUsed then (pages', out.2.2, cnt', dd')
    else deleteLoopGo table criteria hintUsed fuel p.next pages' out.2.2
      cnt' dd'

/-- Embeds `_delete` (src/unnamed/part_001 lines 863–957): the index page
hint restricts the scan to a single page; a hinted pass that deletes
nothing falls back to a full-table scan (`forceFullScan = true`); the
closing event call is the source's `OnTableInserted` — the source notifies
the INSERTED hook with the deleted records (line 955), not
`OnTableDeleted`.  Returns the state and `deletedCount`. -/
def deleteRun (db : DB) (table : String) (criteria : Option Criteria)
    (fuel : Nat) : Except String (DB × Nat) :=
  match findTableEntry db table with
  | none => .error ("Kebun " ++ table ++ " tidak ditemukan.")
  | some entry =>
    let hint := computeHint db.indexes table criteria
    let startPid := match hint with
      | some h => h
      | none => entry.startPage
    let r1 := deleteLoopGo table criteria hint.isSome fuel startPid
      db.pages db.indexes 0 []
    if hint.isSome && r1.2.2.1 == 0 then
      let r2 := deleteLoopGo table criteria false fuel entry.startPage
        r1.1 r1.2.1 0 []
      .ok ({ db with
               pages := r2.1, indexes := r2.2.1,
               events := db.events ++ [.inserted table r2.2.2.2] },
           r2.2.2.1)
    else
      .ok ({ db with
               pages := r1.1, indexes := r1.2.1,
               events := db.events ++ [.inserted table r1.2.2.2] },
           r1.2.2.1)

/-- The user-visible DELETE result string built from `deletedCount`. -/
def deleteOp (db : DB) (table : String) (criteria : Option Criteria) :
    Except String (DB × String) :=
  match deleteRun db table criteria (db.pages.length + 1) with
  | .error e => .error e
  | .ok (db', n) =>
    .ok (db', "Berhasil menggusur " ++ toString n ++ " bibit.")

/-! ## UPDATE (`_update`) -/

/-- `for (const k in updates) obj[k] = updates[k]`. -/
def applyUpdates (o : JSObj) (updates : List (String × Value)) : JSObj :=
  updates.foldl (fun acc kv => acc.set kv.1 kv.2) o

/-- The running state of the `_update` loops: the engine state (pages,
catalog, indexes, events — nested delete/insert act on it), the local page
buffer built so far, the page-modified flag, `updatedCount`, and the
`updatedData` list for the closing event. -/
structure UpSt where
  db : DB
  buf : List StoredRec
  modified : Bool
  cnt : Nat
  upd : List JSObj
deriving Repr

/-- Embeds the record loop of one page of `_update` (src/unnamed/part_001
lines 996–1053).  For a parsed match: updates are applied, the hidden
`_pageId` hint attached, and `_updateIndexes(table, originalObj, obj)`
called exactly as in the source (pre-image passed in the `newObj`
position, post-image in the `oldObj` position).  If the new serialization
fits it is rewritten in the buffer slot (tail zero-filled); otherwise the
source performs `this._delete(table, criteria)` — deleting by the WHOLE
criteria — then `this._insert(table, obj)` and breaks out of the record
loop, leaving the rest of the buffer untouched.  `updatedData` receives
the record only on the in-place path (the `break` skips the push). -/
def updateItems (table : String) (updates : List (String × Value))
    (criteria : Option Criteria) (pid : Nat) (dfuel : Nat) :
    List StoredRec → UpSt → Except String UpSt
  | [], st => .ok st
  | r :: rest, st =>
    match r.content with
    | none =>
      updateItems table updates criteria pid dfuel rest
        { st with buf := st.buf ++ [r] }
    | some obj =>
      if checkMatchOpt criteria obj then
        let originalObj := obj.stripHidden
        let obj1 := applyUpdates obj updates
        let obj2 := obj1.defineHidden "_pageId" (.vNum pid)
        let db1 := { st.db with
          indexes := updateIndexes table (some originalObj) (some obj2)
            st.db.indexes }
        let newLen := obj2.serLen
        if newLen ≤ r.len then
          updateItems table updates criteria pid dfuel rest
            { st with
                db := db1,
                buf := st.buf ++ [⟨newLen, some obj2.stripHidden⟩],
                modified := true, cnt := st.cnt + 1,
                upd := st.upd ++ [obj2] }
        else
          match deleteRun db1 table criteria dfuel with
          | .error e => .error e
          | .ok (db2, _) =>
            match insertOne db2 table obj2 with
            | .error e => .error e
            | .ok (db3, _) =>
              .ok { st with
                      db := db3, cnt := st.cnt + 1,
                      buf := st.buf ++ [r] ++ rest }
      else
        updateItems table updates criteria pid dfuel rest
          { st with buf := st.buf ++ [r] }

/-- Embeds the page loop of `_update` (src/unnamed/part_001 lines
990–1062): a page whose buffer saw an in-place rewrite is written back —
even after an overflow delete+insert already rewrote the underlying pages,
the stale local buffer is what gets written, as in the source; with a page
hint the loop stops after the hinted page; the next page id is read from
the stale buffer. -/
def updateLoopGo (table : String) (updates : List (String × Value))
    (criteria : Option Criteria) (hintUsed : Bool) (dfuel : Nat) :
    Nat → Nat → DB → Nat → List JSObj →
    Except String (DB × Nat × List JSObj)
  | 0, _, db, cnt, upd => .ok (db, cnt, upd)
  | _ + 1, 0, db, cnt, upd => .ok (db, cnt, upd)
  | fuel + 1, pid + 1, db, cnt, upd =>
    let p := readPage db.pages (pid + 1)
    match updateItems table updates criteria (pid + 1) dfuel p.recs
        ⟨db, [], false, cnt, upd⟩ with
    | .error e => .error e
    | .ok st =>
      let db' :=
        if st.modified then
          { st.db with
              pages := writePage st.db.pages (pid + 1) ⟨p.next, st.buf⟩ }
        else st.db
      if hintUsed then .ok (db', st.cnt, st.upd)
      else updateLoopGo table updates criteria hintUsed dfuel fuel p.next
        db' st.cnt st.upd

/-- Embeds `_update` (src/unnamed/part_001 lines 968–1071): the index page
hint restricts the scan to a single page; a hinted pass with zero updates
performs NO fallback — the source's fallback block (lines 1064–1068) is a
comment; the `OnTableUpdated` event closes the operation.  Returns the
state and `updatedCount`. -/
def updateRun (db : DB) (table : String) (updates : List (String × Value))
    (criteria : Option Criteria) (fuel dfuel : Nat) :
    Except String (DB × Nat) :=
  match findTableEntry db table with
  | none => .error ("Kebun " ++ table ++ " tidak ditemukan.")
  | some entry =>
    let hint := computeHint db.indexes table criteria
    let startPid := match hint with
      | some h => h
      | none => entry.startPage
    match updateLoopGo table updates criteria hint.isSome dfuel fuel
        startPid db 0 [] with
    | .error e => .error e
    | .ok (db', cnt, upd) =>
      .ok ({ db' with events := db'.events ++ [.updated table upd] }, cnt)

/-- The user-visible UPDATE result string built from `updatedCount`. -/
def updateOp (db : DB) (table : String) (updates : List (String × Value))
    (criteria : Option Criteria) : Except String (DB × String) :=
  match updateRun db table updates criteria (db.pages.length + 1)
      (db.pages.length + 1) with
  | .error e => .error e
  | .ok (db', n) =>
    .ok (db', "Berhasil memupuk " ++ toString n ++ " bibit.")

/-! ## EXPLAIN (`_explain`, SELECT branch) -/

/-- A join clause as the parser hands it to the executor; `jtype` carries
the already-defaulted join type (`join.type || 'INNER'`). -/
structure JoinSpec where
  table : String
  jtype : String
  onLeft : String
  onOp : String
  onRight : String
deriving DecidableEq, Repr

/-- A SELECT command shape as consumed by `_select` and `_explain`. -/
structure SelectCmd where
  table : String
  cols : List String
  criteria : Option Criteria
  srt : Option SortSpec
  limit : Option Nat
  offsetC : Option Nat
  joins : List JoinSpec
  distinct : Bool

/-- Embeds the SELECT branch of `_explain` (src/unnamed/part_001 lines
1262–1352) as the list of `operation` fields of the steps pushed: the
scan/join steps, then DISTINCT, SORT, LIMIT/OFFSET and PROJECT.  Note the
index-usage test (lines 1289–1301) checks the criteria and the index map
but NOT whether a sort is requested. -/
def explainSelectOps (db : DB) (cmd : SelectCmd) : List String :=
  match findTableEntry db cmd.table with
  | none => []
  | some _ =>
    let scanSteps :=
      if !cmd.joins.isEmpty then
        ["SCAN"] ++ cmd.joins.map (fun j => j.jtype ++ " JOIN")
      else
        match cmd.criteria with
        | some (.leaf k op _) =>
          if (lookupIndex db.indexes (cmd.table ++ "." ++ k)).isSome &&
              op == "=" then ["INDEX SCAN"]
          else ["TABLE SCAN"]
        | some (.compound _ _) => ["TABLE SCAN"]
        | none => ["TABLE SCAN"]
    scanSteps ++
      (if cmd.distinct then ["DISTINCT"] else []) ++
      (match cmd.srt with | some _ => ["SORT"] | none => []) ++
      (if (optTruthy cmd.limit).isSome || (optTruthy cmd.offsetC).isSome
        then ["LIMIT/OFFSET"] else []) ++
      (if !(cmd.cols.length == 1 && cmd.cols.getD 0 "" == "*")
        then ["PROJECT"] else [])

/-- Whether executing the SELECT would actually probe the B-tree index:
the joins-empty branch of `_select` with its index condition
(src/unnamed/part_001 lines 552, 755–772). -/
def selectWouldProbeIndex (db : DB) (cmd : SelectCmd) : Bool :=
  cmd.joins.isEmpty &&
    selectUsesIndex db.indexes cmd.table cmd.criteria cmd.srt

/-! ## Cleanliness of the `_pageId` hint (claim C10) -/

/-- No enumerable property of the object is named `_pageId` — the column
is invisible to `JSON.stringify`, `{...o}` and the result maps. -/
def objCleanB (o : JSObj) : Bool :=
  o.props.all (fun p => !p.enum || p.name != "_pageId")

/-- The parse of a stored run exposes no `_pageId` column; unparseable
runs are vacuously clean. -/
def recCleanB (r : StoredRec) : Bool :=
  match r.content with
  | some o => objCleanB o
  | none => true

/-- Every run of the page is clean. -/
def pageCleanB (p : Page) : Bool := p.recs.all recCleanB

/-- Every page of the heap is clean: no serialized record bytes contain a
`_pageId` field. -/
def heapCleanB (pages : List Page) : Bool := pages.all pageCleanB

/-- Every record held by the index buckets is clean. -/
def ixsCleanB (ixs : List (String × BIndex)) : Bool :=
  ixs.all (fun i => i.2.buckets.all (fun b => b.2.all objCleanB))

/-- Cleanliness of a mutation result: on success both the heap and the
indexes are clean (errors are vacuously clean). -/
def exceptCleanB {α : Type} : Except String (DB × α) → Bool
  | .ok (db', _) => heapCleanB db'.pages && ixsCleanB db'.indexes
  | .error _ => true

/-! ## Concrete instances used by the claim theorems -/

/-- C1 input: record `\x7bid:1, tag:"x"\x7d`, living on page 1. -/
def r1C1 : JSObj := ⟨[⟨"id", .vNum 1, true⟩, ⟨"tag", .vStr "x", true⟩]⟩

/-- C1 input: record `\x7bid:2, tag:"x"\x7d`, living on page 2. -/
def r2C1 : JSObj := ⟨[⟨"id", .vNum 2, true⟩, ⟨"tag", .vStr "x", true⟩]⟩

/-- C1 criteria: the equality `tag = "x"`, matching both records. -/
def critC1 : Criteria := .leaf "tag" "=" (.single (.vStr "x"))

/-- C1 state: table `t` over pages 1 → 2, one matching record on each
page, and an index on `t.tag` whose `"x"` bucket holds both records with
their accurate page hints (page 1 first). -/
def dbC1 : DB :=
  ⟨[emptyPage, ⟨2, [⟨18, some r1C1⟩]⟩, ⟨0, [⟨18, some r2C1⟩]⟩],
   [("t", ⟨1, 2⟩)],
   [("t.tag", ⟨[(.vStr "x",
     [r1C1.defineHidden "_pageId" (.vNum 1),
      r2C1.defineHidden "_pageId" (.vNum 2)])]⟩)],
   []⟩

/-- C2 input: record `\x7bid:1, v:"a"\x7d` (serialization length 16). -/
def r1C2 : JSObj := ⟨[⟨"id", .vNum 1, true⟩, ⟨"v", .vStr "a", true⟩]⟩

/-- C2 input: record `\x7bid:2, v:"a"\x7d` (serialization length 16). -/
def r2C2 : JSObj := ⟨[⟨"id", .vNum 2, true⟩, ⟨"v", .vStr "a", true⟩]⟩

/-- C2 criteria: the equality `v = "a"`, matching both records. -/
def critC2 : Criteria := .leaf "v" "=" (.single (.vStr "a"))

/-- C2 state: table `t`, a single page holding both matching records, no
indexes. -/
def dbC2 : DB :=
  ⟨[emptyPage, ⟨0, [⟨16, some r1C2⟩, ⟨16, some r2C2⟩]⟩],
   [("t", ⟨1, 1⟩)], [], []⟩

/-- C2 updated record: `r1C2` with `w:"WWWWWWWW"` applied, page hint
attached hidden — what the overflow path re-inserts. -/
def r1C2' : JSObj :=
  ((applyUpdates r1C2 [("w", .vStr "WWWWWWWW")]).defineHidden "_pageId"
    (.vNum 1))

/-- C3 input: record `\x7bid:7, v:"old"\x7d`, living on page 2. -/
def rC3 : JSObj := ⟨[⟨"id", .vNum 7, true⟩, ⟨"v", .vStr "old", true⟩]⟩

/-- C3 criteria: the equality `id = 7`, matching the record. -/
def critC3 : Criteria := .leaf "id" "=" (.single (.vNum 7))

/-- C3 state: table `t` over pages 1 → 2, the record on page 2, and an
index on `t.id` whose hint is STALE — it points at page 1. -/
def dbC3 : DB :=
  ⟨[emptyPage, ⟨2, []⟩, ⟨0, [⟨19, some rC3⟩]⟩],
   [("t", ⟨1, 2⟩)],
   [("t.id", ⟨[(.vNum 7, [rC3.defineHidden "_pageId" (.vNum 1)])]⟩)],
   []⟩

/-- C4/C10 input records `\x7bi:1\x7d`, `\x7bi:2\x7d`, `\x7bi:3\x7d`. -/
def aC4 : JSObj := ⟨[⟨"i", .vNum 1, true⟩]⟩

/-- See `aC4`. -/
def bC4 : JSObj := ⟨[⟨"i", .vNum 2, true⟩]⟩

/-- See `aC4`. -/
def cC4 : JSObj := ⟨[⟨"i", .vNum 3, true⟩]⟩

/-- C4 heap: one page holding three records, all matching an absent
criteria. -/
def cexPages : List Page :=
  [emptyPage, ⟨0, [⟨7, some aC4⟩, ⟨7, some bC4⟩, ⟨7, some cC4⟩]⟩]

/-- C5 state: table `t` with an index on `t.id`. -/
def dbC5 : DB := ⟨[emptyPage, emptyPage], [("t", ⟨1, 1⟩)], [("t.id", ⟨[]⟩)], []⟩

/-- C5 command: `SELECT * FROM t WHERE id = 1 ORDER BY id ASC` — a single
equality on the indexed field WITH a sort. -/
def cmdC5 : SelectCmd :=
  ⟨"t", ["*"], some (.leaf "id" "=" (.single (.vNum 1))),
   some ⟨"id", "asc"⟩, none, none, [], false⟩

/-- C8 input: a record whose serialization is 4087 bytes — one byte over
the 4086-byte page payload capacity (4096 − 8 header − 2 prefix). -/
def rC8 : JSObj := ⟨[⟨"k", .vStr (String.mk (List.replicate 4079 'a')), true⟩]⟩

/-- C8 state: table `t` with one empty page, no indexes. -/
def dbC8 : DB := ⟨[emptyPage, emptyPage], [("t", ⟨1, 1⟩)], [], []⟩

/-- C9 input: record `\x7bid:1\x7d`. -/
def rC9 : JSObj := ⟨[⟨"id", .vNum 1, true⟩]⟩

/-- C9 state: table `t` with the one record, no indexes, empty event
trace. -/
def dbC9 : DB := ⟨[emptyPage, ⟨0, [⟨8, some rC9⟩]⟩], [("t", ⟨1, 1⟩)], [], []⟩

/-- C10 witness record: a plain one-column row. -/
def rC10 : JSObj := ⟨[⟨"id", .vNum 1, true⟩]⟩

/-- C10 witness state: one empty data page, a catalog entry for table
`t`, no indexes, empty event trace. -/
def dbC10 : DB := ⟨[emptyPage], [("t", ⟨1, 1⟩)], [], []⟩

/-! # Theorems -/

/-! ## C6: compound criteria evaluate with standard AND/OR semantics -/

/-- The OR fold of `_checkMatch` is the disjunction of the recursively
evaluated conditions, for any seed. -/
theorem checkMatchList_or_eq (obj : JSObj) (conds : List Criteria) :
    ∀ acc : Bool, checkMatchList obj "OR" conds acc
      = (acc || conds.any (fun c => checkMatch obj c)) := by
  induction conds with
  | nil => intro acc; simp [checkMatchList]
  | cons c rest ih =>
    intro acc
    simp only [checkMatchList, ih, List.any_cons]
    cases acc <;> cases checkMatch obj c <;> simp

/-- The AND fold of `_checkMatch` is the conjunction of the recursively
evaluated conditions, for any seed. -/
theorem checkMatchList_and_eq (obj : JSObj) (conds : List Criteria) :
    ∀ acc : Bool, checkMatchList obj "AND" conds acc
      = (acc && conds.all (fun c => checkMatch obj c)) := by
  induction conds with
  | nil => intro acc; simp [checkMatchList]
  | cons c rest ih =>
    intro acc
    simp only [checkMatchList, ih, List.all_cons]
    cases acc <;> cases checkMatch obj c <;> simp

/-- C6 (confirmed): for every record and every compound criteria node,
`_checkMatch` evaluates an `AND` node to the conjunction and an `OR` node
to the disjunction of its recursively evaluated conditions (nested
compounds included), so the AND-tighter-than-OR tree the parser builds
evaluates with standard precedence. -/
theorem compound_criteria_standard_precedence (obj : JSObj)
    (conds : List Criteria) :
    checkMatch obj (.compound "AND" conds)
      = conds.all (fun c => checkMatch obj c) ∧
    checkMatch obj (.compound "OR" conds)
      = conds.any (fun c => checkMatch obj c) := by
  constructor
  · simp [checkMatch, checkMatchList_and_eq]
  · simp [checkMatch, checkMatchList_or_eq]

/-! ## C7: the two LIKE evaluation paths disagree on regex metacharacters -/

/-- C7 (code bug): on the record `\x7bv:"aXb"\x7d` with the pattern
`"a.b"`, the inlined `_scanTable` fast path matches — its unescaped regex
lets `.` match any character — while `_checkSingleCondition`, which
escapes every regex metacharacter as the spec requires, does not.  The
two evaluation paths contradict each other, so LIKE does not treat `.` as
a literal on every path. -/
theorem like_fast_path_metacharacter_divergence :
    scanMatches (some (.leaf "v" "LIKE" (.single (.vStr "a.b"))))
        ⟨[⟨"v", .vStr "aXb", true⟩]⟩ = true ∧
    checkSingleCondition ⟨[⟨"v", .vStr "aXb", true⟩]⟩ "v" "LIKE"
        (.single (.vStr "a.b")) = false := by
  decide

/-! ## C5: EXPLAIN claims an index scan even when a sort suppresses it -/

/-- C5 (code bug): for `SELECT * FROM t WHERE id = 1 ORDER BY id ASC` with
an index on `t.id`, the EXPLAIN plan contains an `INDEX SCAN` step, yet
executing the same SELECT would NOT probe the index — `_select` requires
no sort, `_explain` never checks the sort. -/
theorem explain_index_scan_ignores_order_by :
    (explainSelectOps dbC5 cmdC5).contains "INDEX SCAN" = true ∧
    selectWouldProbeIndex dbC5 cmdC5 = false := by
  decide

/-! ## C9: DELETE notifies the INSERTED hook, never OnTableDeleted -/

/-- C9 (code bug): a successful DELETE that removes one record appends
exactly one event to the sink trace — and it is `OnTableInserted` with the
deleted records (src/unnamed/part_001 line 955), not `OnTableDeleted`,
which is never invoked. -/
theorem delete_invokes_inserted_hook :
    deleteRun dbC9 "t" (some (.leaf "id" "=" (.single (.vNum 1)))) 2 =
      .ok (⟨[emptyPage, ⟨0, []⟩], [("t", ⟨1, 1⟩)], [],
            [.inserted "t" [rC9]]⟩, 1) := by
  decide

/-! ## C1: an index-hinted DELETE misses matching records on other pages -/

/-- C1 (code bug): with records matching `tag = "x"` on pages 1 and 2 and
an accurate index hint naming page 1, DELETE scans only page 1, deletes
one record, reports count 1, and never falls back (the fallback fires only
on zero deletions) — the matching record `r2C1` survives on page 2, so
deleteMatching does not remove every matching record when matches span
pages. -/
theorem delete_index_hint_skips_other_pages :
    deleteRun dbC1 "t" (some critC1) 3 =
      .ok (⟨[emptyPage, ⟨2, []⟩, ⟨0, [⟨18, some r2C1⟩]⟩],
            [("t", ⟨1, 2⟩)],
            [("t.tag", ⟨[(.vStr "x",
              [r2C1.defineHidden "_pageId" (.vNum 2)])]⟩)],
            [.inserted "t" [r1C1]]⟩, 1) ∧
    checkMatch r2C1 critC1 = true := by
  decide

/-! ## C3: a stale update hint performs no fallback scan -/

/-- C3 (code bug): with the record matching `id = 7` on page 2 but a stale
index hint naming page 1, UPDATE scans only page 1, updates zero records,
and returns count 0 leaving the heap untouched — the source's fallback
block is an empty comment, so the matching record is never updated. -/
theorem update_stale_hint_no_fallback :
    updateRun dbC3 "t" [("v", .vStr "new")] (some critC3) 3 3 =
      .ok ({ dbC3 with events := [.updated "t" []] }, 0) ∧
    checkMatch rC3 critC3 = true := by
  decide

/-! ## C2: an overflowing UPDATE deletes the other matching records -/

/-- C2 (code bug): both records match `v = "a"`; updating them with a
longer field makes the first overflow, and the overflow path runs
`_delete(table, criteria)` — deleting BOTH matching records — then
re-inserts only the one being processed.  The result counts 1 update and
the final heap holds only the updated first record: the second matching
record is lost instead of remaining present and updated. -/
theorem update_overflow_drops_other_matches :
    updateRun dbC2 "t" [("w", .vStr "WWWWWWWW")] (some critC2) 2 2 =
      .ok (⟨[emptyPage, ⟨0, [⟨31, some r1C2'.stripHidden⟩]⟩],
            [("t", ⟨1, 1⟩)], [],
            [.inserted "t" [r1C2, r2C2], .inserted "t" [r1C2'],
             .updated "t" []]⟩, 1) ∧
    checkMatch r2C2 critC2 = true := by
  decide

/-! ## C8: an oversized INSERT raises no error and corrupts the header -/

/-- A found table name satisfies the catalog membership test
`updateTableLastPage` performs. -/
theorem findTableEntry_any {db : DB} {t : String} {e : TableEntry}
    (h : findTableEntry db t = some e) :
    db.tables.any (fun x => x.1 == t) = true := by
  unfold findTableEntry at h
  cases hf : db.tables.find? (fun x => x.1 == t) with
  | none => rw [hf] at h; simp at h
  | some x =>
    have hpx : (x.1 == t) = true := by
      have hh := List.find?_some hf
      simpa using hh
    exact List.any_eq_true.2 ⟨x, List.mem_of_find?_eq_some hf, hpx⟩

/-- The `_insertMany` record loop on a single record that does not fit an
empty tail page: the tail is written and linked, a fresh page is
allocated, and the record is written onto it with its full length prefix
but truncated — unparseable — content, leaving the running `freeOffset`
at `10 + serLen`. -/
theorem insertManyGo_single_overflow (table : String) (data : JSObj)
    (pages : List Page) (ixs : List (String × BIndex)) (lp : Nat)
    (hlast : lp < pages.length)
    (hfits : PAGE_SIZE < 8 + (2 + data.serLen)) :
    insertManyGo table [data] ⟨pages, ixs, lp, 0, [], 8, false, []⟩ =
      ⟨writePage ((writePage pages lp ⟨0, []⟩) ++ [emptyPage]) lp
          ⟨pages.length, []⟩,
        (if table != "_indexes" then
          updateIndexes table
            (some (data.defineHidden "_pageId" (.vNum pages.length))) none ixs
        else ixs),
        pages.length, 0, [⟨data.serLen, none⟩], 8 + (2 + data.serLen), true,
        [data.defineHidden "_pageId" (.vNum pages.length)]⟩ := by
  have hnot : ¬ (8 + (2 + data.serLen) ≤ PAGE_SIZE) := by omega
  simp only [insertManyGo, allocPage, writePage, List.length_set]
  rw [if_pos hfits]
  have hrp : readPage (((pages.set lp (⟨0, []⟩ : Page)) ++ [emptyPage]).set lp
      (⟨pages.length, []⟩ : Page)) pages.length = emptyPage := by
    unfold readPage
    rw [List.getD_eq_getElem?_getD]
    rw [List.getElem?_set_ne (by omega)]
    rw [List.getElem?_append_right (by simp)]
    simp
  simp only [hrp]
  simp [emptyPage, Page.freeOffset, hnot, hfits]

/-- C8 (code bug): a single-record INSERT whose serialization exceeds the
heap-page payload capacity (4096 − 8 header − 2 prefix = 4086 bytes)
raises no RECORD_TOO_LARGE error: `_insertMany` allocates a fresh page,
writes the full length prefix while `Buffer.copy` silently truncates the
record bytes, returns the normal success string — which `query()` passes
to the caller — and leaves the fresh page's header claiming
`freeOffset = 10 + serLen > 4096`, inconsistent with its 4096 record
bytes. -/
theorem insert_oversized_record_reports_success
    (db : DB) (table : String) (entry : TableEntry) (data : JSObj)
    (hfind : findTableEntry db table = some entry)
    (hpage : readPage db.pages entry.lastPage = emptyPage)
    (hlast : entry.lastPage < db.pages.length)
    (hkeys : data.enumKeys.isEmpty = false)
    (hlen : PAGE_SIZE < 10 + data.serLen) :
    ∃ db', insertOne db table data = .ok (db', "1 bibit tertanam.") ∧
      (readPage db'.pages db.pages.length).recs.map StoredRec.len
        = [data.serLen] ∧
      (readPage db'.pages db.pages.length).freeOffset = 10 + data.serLen ∧
      PAGE_SIZE < (readPage db'.pages db.pages.length).freeOffset := by
  have hfits : PAGE_SIZE < 8 + (2 + data.serLen) := by omega
  have hgo := insertManyGo_single_overflow table data db.pages db.indexes
    entry.lastPage hlast hfits
  have hany := findTableEntry_any hfind
  unfold insertOne
  rw [hkeys]
  simp only [Bool.false_eq_true, if_false]
  unfold insertMany
  rw [if_neg (by simp : ¬((List.isEmpty [data]) = true))]
  simp only [hfind, hpage]
  simp only [emptyPage, Page.freeOffset, List.map_nil, List.sum_nil]
  rw [show (8 + 0 : Nat) = 8 by rfl]
  rw [hgo]
  simp only [updateTableLastPage, hany, if_true]
  have hstr : ((toString (1 : Nat)) ++ " bibit tertanam.")
      = "1 bibit tertanam." := by decide
  simp only [List.length_cons, List.length_nil, Nat.zero_add, hstr]
  have hrd : readPage
      (writePage (writePage
          ((writePage db.pages entry.lastPage ⟨0, []⟩) ++ [emptyPage])
          entry.lastPage ⟨db.pages.length, []⟩)
        db.pages.length
        ⟨0, [⟨data.serLen, (none : Option JSObj)⟩]⟩)
      db.pages.length
      = ⟨0, [⟨data.serLen, none⟩]⟩ := by
    unfold readPage writePage
    rw [List.getD_eq_getElem?_getD]
    rw [List.getElem?_set_self (by simp [writePage])]
    simp
  refine ⟨_, rfl, ?_, ?_, ?_⟩ <;> dsimp only <;> rw [hrd] <;>
    simp [Page.freeOffset] <;> omega

/-- The serialization length of the oversized witness record: one byte
over the capacity. -/
theorem serLen_rC8 : rC8.serLen = 4087 := by
  show (JSObj.jsonStringify rC8).length = 4087
  rw [show JSObj.jsonStringify rC8
      = "\x7b" ++ ("\"" ++ "k" ++ "\":" ++
        ("\"" ++ String.mk (List.replicate 4079 'a') ++ "\"")) ++ "\x7d"
      from rfl]
  simp only [String.length_append, String.length_mk, List.length_replicate]
  decide

/-- Witness for C8 at the concrete state `dbC8` and record `rC8`. -/
theorem insert_oversized_record_reports_success_witness :
    ∃ db', insertOne dbC8 "t" rC8 = .ok (db', "1 bibit tertanam.") ∧
      (readPage db'.pages dbC8.pages.length).recs.map StoredRec.len
        = [rC8.serLen] ∧
      (readPage db'.pages dbC8.pages.length).freeOffset = 10 + rC8.serLen ∧
      PAGE_SIZE < (readPage db'.pages dbC8.pages.length).freeOffset :=
  insert_oversized_record_reports_success dbC8 "t" ⟨1, 1⟩ rC8 (by decide)
    (by decide) (by decide) (by decide) (by rw [serLen_rC8]; decide)

/-! ## C4: limit pushdown vs naive evaluation -/

/-- The record loop of `_scanTable` with no limit collects exactly the
matching records of the page, in order, after the accumulator. -/
theorem scanItems_full (criteria : Option Criteria) (pid : Nat)
    (items : List JSObj) :
    ∀ acc : List JSObj, scanItems criteria none false pid items acc
      = acc ++ items.filter (scanMatches criteria) := by
  induction items with
  | nil => intro acc; simp [scanItems]
  | cons obj rest ih =>
    intro acc
    simp only [scanItems, limReached]
    by_cases h : scanMatches criteria obj = true
    · simp [h, ih, List.filter_cons]
    · simp [h, ih, List.filter_cons]

/-- The record loop of `_scanTable` with a limit collects the limit-length
prefix of what the unlimited loop collects. -/
theorem scanItems_limited (criteria : Option Criteria) (pid L : Nat)
    (items : List JSObj) :
    ∀ acc : List JSObj, acc.length ≤ L →
    scanItems criteria (some L) false pid items acc
      = (acc ++ items.filter (scanMatches criteria)).take L := by
  induction items with
  | nil =>
    intro acc hacc
    simp [scanItems, List.take_of_length_le hacc]
  | cons obj rest ih =>
    intro acc hacc
    simp only [scanItems, limReached]
    by_cases hL : L ≤ acc.length
    · rw [if_pos (by simpa using hL)]
      rw [List.take_append_of_le_length hL, List.take_of_length_le hacc]
    · rw [if_neg (by simpa using hL)]
      simp only [Bool.false_eq_true, if_false]
      by_cases hm : scanMatches criteria obj = true
      · simp only [hm, if_true]
        rw [ih (acc ++ [obj]) (by simp; omega)]
        simp [List.filter_cons, hm]
      · simp only [hm, Bool.false_eq_true, if_false]
        rw [ih acc hacc]
        simp [List.filter_cons, hm]

/-- The unlimited page loop only appends to its accumulator. -/
theorem scanPagesGo_acc (pages : List Page) (criteria : Option Criteria) :
    ∀ (fuel pid : Nat) (acc : List JSObj),
    scanPagesGo pages criteria none false fuel pid acc
      = acc ++ scanPagesGo pages criteria none false fuel pid [] := by
  intro fuel
  induction fuel with
  | zero => intro pid acc; simp [scanPagesGo]
  | succ n ih =>
    intro pid acc
    simp only [scanPagesGo, limReached, Bool.or_false]
    cases hpb : (pid == 0) with
    | true => simp
    | false =>
      simp only [Bool.false_eq_true, if_false]
      rw [scanItems_full, scanItems_full]
      rw [ih _ (acc ++ _), ih _ ([] ++ _)]
      simp

/-- A limited page loop whose accumulator already reached the limit
returns it unchanged. -/
theorem scanPagesGo_stop (pages : List Page) (criteria : Option Criteria)
    (L : Nat) (raw : Bool) (fuel pid : Nat) (acc : List JSObj)
    (h : L ≤ acc.length) :
    scanPagesGo pages criteria (some L) raw fuel pid acc = acc := by
  cases fuel with
  | zero => rfl
  | succ n =>
    simp only [scanPagesGo, limReached]
    rw [if_pos (by simp [h])]

/-- The limited page loop of `_scanTable` computes the limit-length prefix
of the full scan: the limit pushdown loses no record other than by
truncation at the limit. -/
theorem scanPagesGo_limited (pages : List Page) (criteria : Option Criteria)
    (L : Nat) :
    ∀ (fuel pid : Nat) (acc : List JSObj), acc.length ≤ L →
    scanPagesGo pages criteria (some L) false fuel pid acc
      = (scanPagesGo pages criteria none false fuel pid acc).take L := by
  intro fuel
  induction fuel with
  | zero =>
    intro pid acc hacc
    simp [scanPagesGo, List.take_of_length_le hacc]
  | succ n ih =>
    intro pid acc hacc
    simp only [scanPagesGo, limReached, Bool.or_false]
    cases hpb : (pid == 0) with
    | true => simp [List.take_of_length_le hacc]
    | false =>
      simp only [Bool.false_eq_true, if_false]
      cases hpo : readPageObjects pages pid with
      | mk next items =>
      simp only []
      by_cases hL : L ≤ acc.length
      · rw [if_pos (by simp [hL])]
        rw [scanItems_full]
        rw [scanPagesGo_acc pages criteria n _ (acc ++ _)]
        rw [List.take_append_of_le_length
          (by rw [List.length_append]; omega)]
        rw [List.take_append_of_le_length hL, List.take_of_length_le hacc]
      · rw [if_neg (by simp [hL])]
        rw [scanItems_limited criteria pid L _ acc hacc, scanItems_full]
        by_cases hF : (acc ++ items.filter (scanMatches criteria)).length ≤ L
        · rw [List.take_of_length_le hF]
          exact ih _ _ hF
        · have hlen2 : L ≤ (acc ++ items.filter
              (scanMatches criteria)).length := by omega
          have hlen : L ≤ ((acc ++ items.filter
              (scanMatches criteria)).take L).length := by
            rw [List.length_take]
            omega
          rw [scanPagesGo_stop pages criteria L false n _ _ hlen]
          rw [scanPagesGo_acc pages criteria n _ _]
          rw [List.take_append_of_le_length hlen2]



/-- Taking `min n length` is taking `n`. -/
theorem take_min_length (l : List JSObj) (n : Nat) :
    l.take (min n l.length) = l.take n := by
  rcases le_total n l.length with h | h
  · rw [Nat.min_eq_left h]
  · rw [Nat.min_eq_right h, List.take_of_length_le h,
      List.take_of_length_le (Nat.le_refl _)]

/-- A falsy optional numeric argument is absent or zero. -/
theorem optTruthy_none_cases (x : Option Nat) (h : optTruthy x = none) :
    x = none ∨ x = some 0 := by
  cases x with
  | none => exact Or.inl rfl
  | some n =>
    cases n with
    | zero => exact Or.inr rfl
    | succ m => simp [optTruthy] at h

/-- With a falsy offset, the limit/offset step of `_select` is a plain
prefix-take (a falsy limit takes everything). -/
theorem sliceJS_no_offset (rs : List JSObj) (offsetC limit : Option Nat)
    (hoff : optTruthy offsetC = none) (hlim : limit ≠ some 0) :
    sliceJS rs offsetC limit
      = (match limit with | some l => rs.take l | none => rs) := by
  unfold sliceJS
  rw [hoff]
  cases limit with
  | none =>
    simp [optTruthy, List.take_of_length_le]
  | some l =>
    cases l with
    | zero => exact absurd rfl hlim
    | succ m =>
      simp only [optTruthy, Nat.zero_add, Nat.min_zero, List.drop_zero,
        Nat.sub_zero, Nat.zero_min]
      rw [take_min_length]

/-- C4, amended (corrected): for every SELECT without joins on the scan
path (no index present), with a falsy offset (absent or zero) and a limit
that is not literally 0, the optimised path that pushes the limit into the
scan returns exactly the row sequence of the naive spec-side evaluation —
scan everything, sort, then offset and limit.  The original claim, for
arbitrary offset O, is false: with O > 0 the scan still stops at `limit`
matches and the offset is then applied to that truncated list (see the
counterexample). -/
theorem select_limit_pushdown_eq_naive_of_no_offset
    (pages : List Page) (table : String) (entry : TableEntry)
    (criteria : Option Criteria) (srt : Option SortSpec)
    (limit offsetC : Option Nat)
    (hoff : optTruthy offsetC = none) (hlim : limit ≠ some 0) :
    selectNoJoins [] pages table entry criteria srt limit offsetC
      = selectNaiveSpec pages entry criteria srt limit offsetC := by
  have hres : selectNoJoins [] pages table entry criteria srt limit offsetC
      = sliceJS (jsSort srt (scanTable pages entry criteria
          (if srt == none then limit else none) false)) offsetC limit := by
    unfold selectNoJoins
    cases hsrt : (srt == none) with
    | true =>
      simp only [hsrt, if_true]
      split
      · simp [lookupIndex]
      · rfl
    | false =>
      simp only [hsrt, Bool.false_eq_true, if_false]
      split
      · rfl
      · rfl
  rw [hres]
  unfold selectNaiveSpec
  have hoffz : jsOffsetAmount offsetC = 0 := by
    rcases optTruthy_none_cases offsetC hoff with h0 | h0 <;> subst h0 <;> rfl
  rw [hoffz]
  simp only [List.drop_zero]
  cases hsrt : srt with
  | some s =>
    rw [show ((some s == (none : Option SortSpec))) = false from rfl]
    rw [sliceJS_no_offset _ _ _ hoff hlim]
    simp only [Bool.false_eq_true, if_false]
    cases limit <;> rfl
  | none =>
    rw [show ((none == (none : Option SortSpec))) = true from rfl]
    simp only [if_true]
    rw [sliceJS_no_offset _ _ _ hoff hlim]
    cases limit with
    | none => rfl
    | some l =>
      cases l with
      | zero => exact absurd rfl hlim
      | succ m =>
        show (scanTable pages entry criteria (some (m + 1)) false).take (m + 1)
          = _
        unfold scanTable
        rw [show optTruthy (some (m + 1)) = some (m + 1) from rfl]
        rw [scanPagesGo_limited pages criteria (m + 1) _ _ []
          (by simp)]
        rw [List.take_take, Nat.min_self]
        rfl

/-- C4 counterexample: three matching records, `LIMIT 2 OFFSET 1`.  The
optimised path collects only the first two matches and then drops one,
returning a single row, while the naive evaluation returns rows 1..2 of
the matching sequence — the two differ. -/
theorem select_limit_pushdown_offset_counterexample :
    selectNoJoins [] cexPages "t" ⟨1, 1⟩ none none (some 2) (some 1)
      ≠ selectNaiveSpec cexPages ⟨1, 1⟩ none none (some 2) (some 1) := by
  decide

/-- Witness for the amended C4 at a concrete table: `LIMIT 2`, no offset. -/
theorem select_limit_pushdown_eq_naive_of_no_offset_witness :
    selectNoJoins [] cexPages "t" ⟨1, 1⟩ none none (some 2) none
      = selectNaiveSpec cexPages ⟨1, 1⟩ none none (some 2) none :=
  select_limit_pushdown_eq_naive_of_no_offset cexPages "t" ⟨1, 1⟩ none none
    (some 2) none (by decide) (by decide)


/-! ## C10: the `_pageId` hint never escapes into pages or results

`objCleanB` says an object carries no ENUMERABLE `_pageId` property (a
hidden hint attached via `defineProperty(..., \x7benumerable: false\x7d)` is
allowed - that is exactly how the source attaches it).  The lemmas below
push this cleanliness invariant through every embedded operation: page
reads and writes, index erase/insert/update, the scan/sort/slice SELECT
pipeline, `_insertMany`, `_delete` and `_update` (including the nested
delete+insert overflow path). -/

theorem objCleanB_defineHidden_pageId (o : JSObj) (v : Value) :
    objCleanB (o.defineHidden "_pageId" v) = true := by
  unfold JSObj.defineHidden objCleanB
  by_cases h : o.props.any (fun p => p.name == "_pageId") = true
  · rw [if_pos h]
    rw [List.all_eq_true]
    intro p hp
    simp only [List.mem_map] at hp
    obtain ⟨q, _, hq⟩ := hp
    by_cases hn : (q.name == "_pageId") = true
    · rw [if_pos hn] at hq
      subst hq
      simp
    · rw [if_neg hn] at hq
      subst hq
      simp only [Bool.or_eq_true]
      right
      simpa using hn
  · rw [if_neg h]
    rw [List.all_eq_true]
    intro p hp
    simp only [List.mem_append, List.mem_singleton] at hp
    rcases hp with hp | hp
    · have := (fun hq => h (List.any_eq_true.2 ⟨p, hp, hq⟩))
      simp only [Bool.or_eq_true]
      right
      by_cases hn : (p.name == "_pageId") = true
      · exact absurd hn this
      · simpa using hn
    · subst hp
      simp

theorem objCleanB_stripHidden (o : JSObj) :
    objCleanB o.stripHidden = objCleanB o := by
  unfold JSObj.stripHidden objCleanB
  induction o.props with
  | nil => rfl
  | cons p rest ih =>
    cases hp : p.enum with
    | true => simp [List.filter_cons, hp, ih]
    | false => simp [List.filter_cons, hp, ih]

theorem recCleanB_mk_some (len : Nat) (o : JSObj) :
    recCleanB ⟨len, some o⟩ = objCleanB o := rfl

theorem pageCleanB_readPage (pages : List Page) (pid : Nat)
    (h : heapCleanB pages = true) : pageCleanB (readPage pages pid) = true := by
  unfold readPage
  rw [List.getD_eq_getElem?_getD]
  cases hg : pages[pid]? with
  | none => simp [pageCleanB, emptyPage]
  | some p =>
    simp only [Option.getD_some]
    exact List.all_eq_true.1 h p (List.getElem?_mem hg)

theorem heapCleanB_writePage (pages : List Page) (pid : Nat) (p : Page)
    (hp : pageCleanB p = true) (h : heapCleanB pages = true) :
    heapCleanB (writePage pages pid p) = true := by
  unfold writePage heapCleanB
  rw [List.all_eq_true]
  intro q hq
  rcases List.mem_or_eq_of_mem_set hq with hq | hq
  · exact List.all_eq_true.1 h q hq
  · subst hq; exact hp

theorem ixsCleanB_erase (ix : BIndex) (k : Value)
    (h : ix.buckets.all (fun b => b.2.all objCleanB) = true) :
    (ix.erase k).buckets.all (fun b => b.2.all objCleanB) = true := by
  unfold BIndex.erase
  rw [List.all_eq_true]
  intro b hb
  simp only [List.mem_filter, List.mem_map] at hb
  obtain ⟨⟨c, hc, hbc⟩, _⟩ := hb
  have hcl := List.all_eq_true.1 h c hc
  by_cases hk : (c.1 == k) = true
  · rw [if_pos hk] at hbc
    subst hbc
    rw [List.all_eq_true]
    intro o ho
    exact List.all_eq_true.1 hcl o (List.mem_of_mem_tail ho)
  · rw [if_neg hk] at hbc
    subst hbc
    exact hcl

theorem ixsCleanB_insert (ix : BIndex) (k : Value) (r : JSObj)
    (hr : objCleanB r = true)
    (h : ix.buckets.all (fun b => b.2.all objCleanB) = true) :
    (ix.insert k r).buckets.all (fun b => b.2.all objCleanB) = true := by
  unfold BIndex.insert
  by_cases hk : ix.buckets.any (fun b => b.1 == k) = true
  · rw [if_pos hk]
    rw [List.all_eq_true]
    intro b hb
    simp only [List.mem_map] at hb
    obtain ⟨c, hc, hbc⟩ := hb
    have hcl := List.all_eq_true.1 h c hc
    by_cases hck : (c.1 == k) = true
    · rw [if_pos hck] at hbc
      subst hbc
      simp only [List.all_append, Bool.and_eq_true]
      exact ⟨hcl, by simp [hr]⟩
    · rw [if_neg hck] at hbc
      subst hbc
      exact hcl
  · rw [if_neg hk]
    simp only [List.all_append, Bool.and_eq_true]
    exact ⟨h, by simp [hr]⟩

theorem ixsCleanB_updateIndexes (table : String) (newObj oldObj : Option JSObj)
    (ixs : List (String × BIndex))
    (hnew : ∀ o, newObj = some o → objCleanB o = true)
    (h : ixsCleanB ixs = true) :
    ixsCleanB (updateIndexes table newObj oldObj ixs) = true := by
  unfold ixsCleanB updateIndexes
  rw [List.all_eq_true]
  intro i hi
  simp only [List.mem_map] at hi
  obtain ⟨j, hj, hij⟩ := hi
  have hjc := List.all_eq_true.1 h j hj
  by_cases ht : (splitIndexKey j.1).1 != table
  · rw [if_pos ht] at hij
    subst hij
    exact hjc
  · rw [if_neg ht] at hij
    subst hij
    simp only []
    have h1 : ((match oldObj with
        | some o =>
          if (o.get (splitIndexKey j.1).2).isSome &&
              (newObj.isNone ||
                !((newObj.bind (fun o => o.get (splitIndexKey j.1).2))
                  == (oldObj.bind (fun o => o.get (splitIndexKey j.1).2)))) then
            match o.get (splitIndexKey j.1).2 with
            | some v => j.2.erase v
            | none => j.2
          else j.2
        | none => j.2 : BIndex)).buckets.all
        (fun b => b.2.all objCleanB) = true := by
      cases oldObj with
      | none => exact hjc
      | some o =>
        simp only []
        split
        · cases hov : o.get (splitIndexKey j.1).2 with
          | none => exact hjc
          | some v => exact ixsCleanB_erase _ _ hjc
        · exact hjc
    cases newObj with
    | none => exact h1
    | some n =>
      simp only []
      split
      · cases hnv : n.get (splitIndexKey j.1).2 with
        | none => exact h1
        | some v => exact ixsCleanB_insert _ _ _ (hnew n rfl) h1
      · exact h1

theorem ixsCleanB_removeFromIndexes (table : String) (data : JSObj)
    (ixs : List (String × BIndex)) (h : ixsCleanB ixs = true) :
    ixsCleanB (removeFromIndexes table data ixs) = true := by
  unfold ixsCleanB removeFromIndexes
  rw [List.all_eq_true]
  intro i hi
  simp only [List.mem_map] at hi
  obtain ⟨j, hj, hij⟩ := hi
  have hjc := List.all_eq_true.1 h j hj
  by_cases ht : ((splitIndexKey j.1).1 == table) = true
  · rw [if_pos ht] at hij
    cases hv : data.get (splitIndexKey j.1).2 with
    | none => rw [hv] at hij; subst hij; exact hjc
    | some v => rw [hv] at hij; subst hij; exact ixsCleanB_erase _ _ hjc
  · rw [if_neg ht] at hij
    subst hij
    exact hjc

theorem pageItems_clean (p : Page) (h : pageCleanB p = true) :
    (p.recs.filterMap (fun r => r.content)).all objCleanB = true := by
  rw [List.all_eq_true]
  intro o ho
  rw [List.mem_filterMap] at ho
  obtain ⟨r, hr, hro⟩ := ho
  have := List.all_eq_true.1 h r hr
  unfold recCleanB at this
  rw [hro] at this
  exact this

theorem scanItems_clean (criteria : Option Criteria) (effLimit : Option Nat)
    (raw : Bool) (pid : Nat) (items : List JSObj) :
    ∀ acc : List JSObj, items.all objCleanB = true →
    acc.all objCleanB = true →
    (scanItems criteria effLimit raw pid items acc).all objCleanB = true := by
  induction items with
  | nil => intro acc _ hacc; exact hacc
  | cons obj rest ih =>
    intro acc hitems hacc
    simp only [List.all_cons, Bool.and_eq_true] at hitems
    simp only [scanItems]
    by_cases hl : limReached effLimit acc.length = true
    · rw [if_pos hl]; exact hacc
    · rw [if_neg hl]
      apply ih _ hitems.2
      by_cases hm : scanMatches criteria obj = true
      · rw [if_pos hm]
        simp only [List.all_append, Bool.and_eq_true]
        refine ⟨hacc, ?_⟩
        cases raw with
        | false => simp [hitems.1]
        | true => simp [objCleanB_defineHidden_pageId]
      · rw [if_neg hm]; exact hacc

theorem scanPagesGo_clean (pages : List Page) (criteria : Option Criteria)
    (effLimit : Option Nat) (raw : Bool) (h : heapCleanB pages = true) :
    ∀ (fuel pid : Nat) (acc : List JSObj), acc.all objCleanB = true →
    (scanPagesGo pages criteria effLimit raw fuel pid acc).all objCleanB
      = true := by
  intro fuel
  induction fuel with
  | zero => intro pid acc hacc; exact hacc
  | succ n ih =>
    intro pid acc hacc
    simp only [scanPagesGo]
    by_cases hc : (pid == 0 || limReached effLimit acc.length) = true
    · rw [if_pos hc]; exact hacc
    · rw [if_neg hc]
      apply ih
      exact scanItems_clean _ _ _ _ _ _
        (pageItems_clean _ (pageCleanB_readPage pages pid h)) hacc

theorem scanTable_clean (pages : List Page) (entry : TableEntry)
    (criteria : Option Criteria) (limit : Option Nat) (raw : Bool)
    (h : heapCleanB pages = true) :
    (scanTable pages entry criteria limit raw).all objCleanB = true :=
  scanPagesGo_clean pages criteria (optTruthy limit) raw h _ _ [] rfl

theorem sortedInsert_clean (le : JSObj → JSObj → Bool) (x : JSObj)
    (l : List JSObj) (hx : objCleanB x = true)
    (hl : l.all objCleanB = true) :
    (sortedInsert le x l).all objCleanB = true := by
  induction l with
  | nil => simp [sortedInsert, hx]
  | cons y ys ih =>
    simp only [List.all_cons, Bool.and_eq_true] at hl
    simp only [sortedInsert]
    by_cases hle : le y x = true
    · rw [if_pos hle]
      simp only [List.all_cons, Bool.and_eq_true]
      exact ⟨hl.1, ih hl.2⟩
    · rw [if_neg hle]
      simp [hx, hl.1, hl.2]

theorem jsSort_clean (srt : Option SortSpec) (rs : List JSObj)
    (h : rs.all objCleanB = true) :
    (jsSort srt rs).all objCleanB = true := by
  cases srt with
  | none => exact h
  | some s =>
    show (rs.foldr (sortedInsert (jsSortLe s)) []).all objCleanB = true
    induction rs with
    | nil => rfl
    | cons x xs ih =>
      simp only [List.all_cons, Bool.and_eq_true] at h
      exact sortedInsert_clean _ _ _ h.1 (ih h.2)

theorem sliceJS_clean (rs : List JSObj) (offsetC limit : Option Nat)
    (h : rs.all objCleanB = true) :
    (sliceJS rs offsetC limit).all objCleanB = true := by
  unfold sliceJS
  rw [List.all_eq_true]
  intro o ho
  exact List.all_eq_true.1 h o
    (((List.take_sublist _ _).trans (List.drop_sublist _ _)).mem ho)

theorem search_clean (ix : BIndex) (k : Value)
    (h : ix.buckets.all (fun b => b.2.all objCleanB) = true) :
    (ix.search k).all objCleanB = true := by
  unfold BIndex.search
  cases hf : ix.buckets.find? (fun b => b.1 == k) with
  | none => rfl
  | some b => exact List.all_eq_true.1 h b (List.mem_of_find?_eq_some hf)

theorem lookupIndex_clean (ixs : List (String × BIndex)) (key : String)
    (ix : BIndex) (h : lookupIndex ixs key = some ix)
    (hixs : ixsCleanB ixs = true) :
    ix.buckets.all (fun b => b.2.all objCleanB) = true := by
  unfold lookupIndex at h
  cases hf : ixs.find? (fun i => i.1 == key) with
  | none => rw [hf] at h; simp at h
  | some j =>
    rw [hf] at h
    simp only [Option.map_some'] at h
    have hm := List.mem_of_find?_eq_some hf
    rw [← Option.some_inj.1 h]
    exact List.all_eq_true.1 hixs j hm

theorem selectNoJoins_clean (ixs : List (String × BIndex))
    (pages : List Page) (table : String) (entry : TableEntry)
    (criteria : Option Criteria) (srt : Option SortSpec)
    (limit offsetC : Option Nat)
    (hheap : heapCleanB pages = true) (hixs : ixsCleanB ixs = true) :
    (selectNoJoins ixs pages table entry criteria srt limit offsetC).all
      objCleanB = true := by
  unfold selectNoJoins
  apply sliceJS_clean
  apply jsSort_clean
  split
  · split
    · split
      · rename_i key hkey
        split
        · exact search_clean _ _ (lookupIndex_clean _ _ _ hkey hixs)
        · rfl
      · exact scanTable_clean _ _ _ _ _ hheap
    · exact scanTable_clean _ _ _ _ _ hheap
  · exact scanTable_clean _ _ _ _ _ hheap

theorem pageCleanB_emptyPage : pageCleanB emptyPage = true := rfl

theorem heapCleanB_append_empty (pages : List Page)
    (h : heapCleanB pages = true) :
    heapCleanB (pages ++ [emptyPage]) = true := by
  unfold heapCleanB at *
  simp [List.all_append, h, pageCleanB, emptyPage]

theorem recCleanB_stored (len : Nat) (data : JSObj) (c : Prop)
    [Decidable c] (hd : objCleanB data = true) :
    recCleanB ⟨len, if c then some data.stripHidden else none⟩ = true := by
  by_cases h : c
  · simp [recCleanB, if_pos h, objCleanB_stripHidden, hd]
  · simp [recCleanB, if_neg h]

theorem hnew_defineHidden (x : JSObj) (v : Value) :
    ∀ o, some (x.defineHidden "_pageId" v) = some o →
    objCleanB o = true := by
  intro o ho
  rw [← Option.some_inj.1 ho]
  exact objCleanB_defineHidden_pageId x v

theorem insertManyGo_clean (table : String) (dataArray : List JSObj) :
    ∀ st : InsSt, dataArray.all objCleanB = true →
    heapCleanB st.pages = true → ixsCleanB st.indexes = true →
    st.bufRecs.all recCleanB = true →
    heapCleanB (insertManyGo table dataArray st).pages = true ∧
    ixsCleanB (insertManyGo table dataArray st).indexes = true ∧
    (insertManyGo table dataArray st).bufRecs.all recCleanB = true := by
  induction dataArray with
  | nil => intro st _ h1 h2 h3; exact ⟨h1, h2, h3⟩
  | cons data rest ih =>
    intro st hd h1 h2 h3
    simp only [List.all_cons, Bool.and_eq_true] at hd
    simp only [insertManyGo]
    by_cases hov : PAGE_SIZE < st.freeOffset + (2 + data.serLen)
    · rw [if_pos hov]
      have hp1 : heapCleanB (writePage st.pages st.currentPageId
          ⟨st.bufNext, st.bufRecs⟩) = true :=
        heapCleanB_writePage _ _ _ h3 h1
      have hp2 : heapCleanB ((writePage st.pages st.currentPageId
          ⟨st.bufNext, st.bufRecs⟩) ++ [emptyPage]) = true :=
        heapCleanB_append_empty _ hp1
      have hp3 : heapCleanB (writePage ((writePage st.pages st.currentPageId
          ⟨st.bufNext, st.bufRecs⟩) ++ [emptyPage]) st.currentPageId
          ⟨(writePage st.pages st.currentPageId
            ⟨st.bufNext, st.bufRecs⟩).length, st.bufRecs⟩) = true :=
        heapCleanB_writePage _ _ _ h3 hp2
      have hrecs : (readPage (writePage ((writePage st.pages st.currentPageId
          ⟨st.bufNext, st.bufRecs⟩) ++ [emptyPage]) st.currentPageId
          ⟨(writePage st.pages st.currentPageId
            ⟨st.bufNext, st.bufRecs⟩).length, st.bufRecs⟩)
          (writePage st.pages st.currentPageId
            ⟨st.bufNext, st.bufRecs⟩).length).recs.all recCleanB = true :=
        pageCleanB_readPage _ _ hp3
      refine ih _ hd.2 ?_ ?_ ?_
      · exact hp3
      · by_cases ht : (table != "_indexes") = true
        · rw [if_pos ht]
          exact ixsCleanB_updateIndexes _ _ _ _ (hnew_defineHidden _ _) h2
        · rw [if_neg ht]; exact h2
      · simp only [List.all_append, Bool.and_eq_true]
        refine ⟨hrecs, ?_⟩
        simp only [List.all_cons, List.all_nil, Bool.and_true]
        exact recCleanB_stored _ _ _ hd.1
    · rw [if_neg hov]
      refine ih _ hd.2 h1 ?_ ?_
      · by_cases ht : (table != "_indexes") = true
        · rw [if_pos ht]
          exact ixsCleanB_updateIndexes _ _ _ _ (hnew_defineHidden _ _) h2
        · rw [if_neg ht]; exact h2
      · simp only [List.all_append, Bool.and_eq_true]
        refine ⟨h3, ?_⟩
        simp only [List.all_cons, List.all_nil, Bool.and_true]
        exact recCleanB_stored _ _ _ hd.1

theorem exceptCleanB_ok {α : Type} {e : Except String (DB × α)} {db' : DB}
    {a : α} (h : exceptCleanB e = true) (he : e = .ok (db', a)) :
    heapCleanB db'.pages = true ∧ ixsCleanB db'.indexes = true := by
  subst he
  simpa [exceptCleanB, Bool.and_eq_true] using h

theorem insertMany_clean (db : DB) (table : String) (dataArray : List JSObj)
    (hd : dataArray.all objCleanB = true)
    (hheap : heapCleanB db.pages = true)
    (hixs : ixsCleanB db.indexes = true) :
    exceptCleanB (insertMany db table dataArray) = true := by
  unfold insertMany
  by_cases he : dataArray.isEmpty = true
  · rw [if_pos he]
    simp [exceptCleanB, hheap, hixs]
  · rw [if_neg he]
    cases findTableEntry db table with
    | none => rfl
    | some entry =>
      simp only []
      have hgo := insertManyGo_clean table dataArray
        ⟨db.pages, db.indexes, entry.lastPage,
          (readPage db.pages entry.lastPage).next,
          (readPage db.pages entry.lastPage).recs,
          (readPage db.pages entry.lastPage).freeOffset, false, []⟩
        hd hheap hixs (pageCleanB_readPage db.pages entry.lastPage hheap)
      split
      · rfl
      · simp only [exceptCleanB, Bool.and_eq_true]
        exact ⟨heapCleanB_writePage _ _ _ hgo.2.2 hgo.1, hgo.2.1⟩

theorem insertOne_clean (db : DB) (table : String) (data : JSObj)
    (hd : objCleanB data = true)
    (hheap : heapCleanB db.pages = true)
    (hixs : ixsCleanB db.indexes = true) :
    exceptCleanB (insertOne db table data) = true := by
  unfold insertOne
  by_cases he : data.enumKeys.isEmpty = true
  · rw [if_pos he]; rfl
  · rw [if_neg he]
    exact insertMany_clean db table [data] (by simp [hd]) hheap hixs

theorem deleteItems_clean (table : String) (criteria : Option Criteria) :
    ∀ (recs keep : List StoredRec) (del : List JSObj)
      (ixs : List (String × BIndex)),
    recs.all recCleanB = true → keep.all recCleanB = true →
    ixsCleanB ixs = true →
    (deleteItems table criteria recs keep del ixs).1.all recCleanB = true ∧
    ixsCleanB (deleteItems table criteria recs keep del ixs).2.2 = true := by
  intro recs
  induction recs with
  | nil => intro keep del ixs _ h2 h3; exact ⟨h2, h3⟩
  | cons r rest ih =>
    intro keep del ixs h1 h2 h3
    simp only [List.all_cons, Bool.and_eq_true] at h1
    simp only [deleteItems]
    cases hc : r.content with
    | none =>
      dsimp only
      exact ih _ _ _ h1.2 (by simp [List.all_append, h2, h1.1]) h3
    | some obj =>
      dsimp only
      have hobj : objCleanB obj = true := by
        have := h1.1
        unfold recCleanB at this
        rw [hc] at this
        exact this
      by_cases hm : checkMatchOpt criteria obj = true
      · rw [if_pos hm]
        refine ih _ _ _ h1.2 h2 ?_
        by_cases ht : (table != "_indexes") = true
        · rw [if_pos ht]
          exact ixsCleanB_removeFromIndexes _ _ _ h3
        · rw [if_neg ht]; exact h3
      · rw [if_neg hm]
        exact ih _ _ _ h1.2 (by simp [List.all_append, h2, h1.1]) h3

theorem deleteLoopGo_clean (table : String) (criteria : Option Criteria)
    (hintUsed : Bool) :
    ∀ (fuel pid : Nat) (pages : List Page) (ixs : List (String × BIndex))
      (cnt : Nat) (dd : List JSObj),
    heapCleanB pages = true → ixsCleanB ixs = true →
    heapCleanB (deleteLoopGo table criteria hintUsed fuel pid pages ixs
      cnt dd).1 = true ∧
    ixsCleanB (deleteLoopGo table criteria hintUsed fuel pid pages ixs
      cnt dd).2.1 = true := by
  intro fuel
  induction fuel with
  | zero => intro pid pages ixs cnt dd h1 h2; exact ⟨h1, h2⟩
  | succ n ih =>
    intro pid pages ixs cnt dd h1 h2
    cases pid with
    | zero => exact ⟨h1, h2⟩
    | succ p =>
      simp only [deleteLoopGo]
      have hpg := pageCleanB_readPage pages (p + 1) h1
      have hit := deleteItems_clean table criteria
        (readPage pages (p + 1)).recs [] [] ixs hpg rfl h2
      have hpages' : heapCleanB
          (if (!(deleteItems table criteria (readPage pages (p + 1)).recs
              [] [] ixs).2.1.isEmpty) = true then
            writePage pages (p + 1)
              ⟨(readPage pages (p + 1)).next,
                (deleteItems table criteria (readPage pages (p + 1)).recs
                  [] [] ixs).1⟩
          else pages) = true := by
        split
        · exact heapCleanB_writePage _ _ _ hit.1 h1
        · exact h1
      by_cases hu : hintUsed = true
      · rw [if_pos hu]
        exact ⟨hpages', hit.2⟩
      · rw [if_neg hu]
        exact ih _ _ _ _ _ hpages' hit.2

theorem deleteRun_clean (db : DB) (table : String)
    (criteria : Option Criteria) (fuel : Nat)
    (hheap : heapCleanB db.pages = true)
    (hixs : ixsCleanB db.indexes = true) :
    exceptCleanB (deleteRun db table criteria fuel) = true := by
  unfold deleteRun
  cases findTableEntry db table with
  | none => rfl
  | some entry =>
    simp only []
    have h1 := deleteLoopGo_clean table criteria
      (computeHint db.indexes table criteria).isSome fuel
      (match computeHint db.indexes table criteria with
        | some h => h
        | none => entry.startPage)
      db.pages db.indexes 0 [] hheap hixs
    split
    · have h2 := deleteLoopGo_clean table criteria false fuel
        entry.startPage _ _ 0 [] h1.1 h1.2
      simp only [exceptCleanB, Bool.and_eq_true]
      exact ⟨h2.1, h2.2⟩
    · simp only [exceptCleanB, Bool.and_eq_true]
      exact ⟨h1.1, h1.2⟩

theorem hnew_strip (x : JSObj) (hx : objCleanB x = true) :
    ∀ o, some x.stripHidden = some o → objCleanB o = true := by
  intro o ho
  rw [← Option.some_inj.1 ho, objCleanB_stripHidden]
  exact hx

theorem updateItems_clean (table : String) (updates : List (String × Value))
    (criteria : Option Criteria) (pid dfuel : Nat) :
    ∀ (recs : List StoredRec) (st st' : UpSt),
    recs.all recCleanB = true → st.buf.all recCleanB = true →
    heapCleanB st.db.pages = true → ixsCleanB st.db.indexes = true →
    updateItems table updates criteria pid dfuel recs st = .ok st' →
    st'.buf.all recCleanB = true ∧ heapCleanB st'.db.pages = true ∧
    ixsCleanB st'.db.indexes = true := by
  intro recs
  induction recs with
  | nil =>
    intro st st' _ hb hp hx heq
    simp only [updateItems] at heq
    injection heq with h
    subst h
    exact ⟨hb, hp, hx⟩
  | cons r rest ih =>
    intro st st' h1 hb hp hx heq
    simp only [List.all_cons, Bool.and_eq_true] at h1
    simp only [updateItems] at heq
    cases hc : r.content with
    | none =>
      rw [hc] at heq
      dsimp only at heq
      exact ih { st with buf := st.buf ++ [r] } st' h1.2
        (by simp [List.all_append, hb, h1.1]) hp hx heq
    | some obj =>
      rw [hc] at heq
      dsimp only at heq
      have hobj : objCleanB obj = true := by
        have h1a := h1.1
        unfold recCleanB at h1a
        rw [hc] at h1a
        exact h1a
      by_cases hm : checkMatchOpt criteria obj = true
      · rw [if_pos hm] at heq
        by_cases hfit : ((applyUpdates obj updates).defineHidden "_pageId"
            (.vNum pid)).serLen ≤ r.len
        · rw [if_pos hfit] at heq
          refine ih
            { st with
                db := { st.db with
                  indexes := updateIndexes table (some obj.stripHidden)
                    (some ((applyUpdates obj updates).defineHidden "_pageId"
                      (.vNum pid))) st.db.indexes },
                buf := st.buf ++
                  [⟨((applyUpdates obj updates).defineHidden "_pageId"
                      (.vNum pid)).serLen,
                    some (((applyUpdates obj updates).defineHidden "_pageId"
                      (.vNum pid)).stripHidden)⟩],
                modified := true, cnt := st.cnt + 1,
                upd := st.upd ++
                  [(applyUpdates obj updates).defineHidden "_pageId"
                    (.vNum pid)] }
            st' h1.2 ?_ ?_ ?_ heq
          · simp only [List.all_append, Bool.and_eq_true]
            refine ⟨hb, ?_⟩
            simp only [List.all_cons, List.all_nil, Bool.and_true]
            rw [recCleanB_mk_some, objCleanB_stripHidden]
            exact objCleanB_defineHidden_pageId _ _
          · exact hp
          · exact ixsCleanB_updateIndexes _ _ _ _ (hnew_strip obj hobj) hx
        · rw [if_neg hfit] at heq
          have hdb1ix : ixsCleanB (updateIndexes table
              (some obj.stripHidden)
              (some ((applyUpdates obj updates).defineHidden "_pageId"
                (.vNum pid))) st.db.indexes) = true :=
            ixsCleanB_updateIndexes _ _ _ _ (hnew_strip obj hobj) hx
          cases hdel : deleteRun
              { st.db with
                  indexes := updateIndexes table (some obj.stripHidden)
                    (some ((applyUpdates obj updates).defineHidden "_pageId"
                      (.vNum pid))) st.db.indexes }
              table criteria dfuel with
          | error e => rw [hdel] at heq; cases heq
          | ok val =>
            obtain ⟨db2, n2⟩ := val
            rw [hdel] at heq
            dsimp only at heq
            have hdel2 := exceptCleanB_ok
              (deleteRun_clean
                { st.db with
                    indexes := updateIndexes table (some obj.stripHidden)
                      (some ((applyUpdates obj updates).defineHidden
                        "_pageId" (.vNum pid))) st.db.indexes }
                table criteria dfuel hp hdb1ix) hdel
            cases hins : insertOne db2 table
                ((applyUpdates obj updates).defineHidden "_pageId"
                  (.vNum pid)) with
            | error e => rw [hins] at heq; cases heq
            | ok val2 =>
              obtain ⟨db3, s3⟩ := val2
              rw [hins] at heq
              dsimp only at heq
              have hins2 := exceptCleanB_ok
                (insertOne_clean db2 table _
                  (objCleanB_defineHidden_pageId _ _) hdel2.1 hdel2.2) hins
              injection heq with h
              subst h
              refine ⟨?_, hins2.1, hins2.2⟩
              simp [List.all_append, hb, h1.1, h1.2]
      · rw [if_neg hm] at heq
        exact ih { st with buf := st.buf ++ [r] } st' h1.2
          (by simp [List.all_append, hb, h1.1]) hp hx heq

theorem updateLoopGo_clean (table : String) (updates : List (String × Value))
    (criteria : Option Criteria) (hintUsed : Bool) (dfuel : Nat) :
    ∀ (fuel pid : Nat) (db : DB) (cnt : Nat) (upd : List JSObj),
    heapCleanB db.pages = true → ixsCleanB db.indexes = true →
    exceptCleanB (updateLoopGo table updates criteria hintUsed dfuel
      fuel pid db cnt upd) = true := by
  intro fuel
  induction fuel with
  | zero =>
    intro pid db cnt upd hp hx
    simp [updateLoopGo, exceptCleanB, hp, hx]
  | succ n ih =>
    intro pid db cnt upd hp hx
    cases pid with
    | zero => simp [updateLoopGo, exceptCleanB, hp, hx]
    | succ q =>
      simp only [updateLoopGo]
      cases hit : updateItems table updates criteria (q + 1) dfuel
          (readPage db.pages (q + 1)).recs ⟨db, [], false, cnt, upd⟩ with
      | error e => rfl
      | ok st =>
        have hst := updateItems_clean table updates criteria (q + 1) dfuel
          (readPage db.pages (q + 1)).recs ⟨db, [], false, cnt, upd⟩ st
          (pageCleanB_readPage db.pages (q + 1) hp) rfl hp hx hit
        dsimp only
        have hdb' : heapCleanB (if st.modified then { st.db with pages := writePage st.db.pages (q + 1) (Page.mk (readPage db.pages (q + 1)).next st.buf) } else st.db).pages = true ∧ ixsCleanB (if st.modified then { st.db with pages := writePage st.db.pages (q + 1) (Page.mk (readPage db.pages (q + 1)).next st.buf) } else st.db).indexes = true := by
          cases hm : st.modified with
          | false =>
            rw [if_neg (by simp [hm])]
            exact ⟨hst.2.1, hst.2.2⟩
          | true =>
            rw [if_pos (by simp [hm])]
            exact ⟨heapCleanB_writePage _ _ _ hst.1 hst.2.1, hst.2.2⟩
        cases hintUsed with
        | true => simp [exceptCleanB, hdb'.1, hdb'.2]
        | false => exact ih _ _ _ _ hdb'.1 hdb'.2

theorem updateRun_clean (db : DB) (table : String)
    (updates : List (String × Value)) (criteria : Option Criteria)
    (fuel dfuel : Nat)
    (hp : heapCleanB db.pages = true) (hx : ixsCleanB db.indexes = true) :
    exceptCleanB (updateRun db table updates criteria fuel dfuel) = true := by
  unfold updateRun
  cases findTableEntry db table with
  | none => rfl
  | some entry =>
    dsimp only
    cases hcH : computeHint db.indexes table criteria with
    | none =>
      dsimp only [Option.isSome]
      cases hlo : updateLoopGo table updates criteria false dfuel fuel
          entry.startPage db 0 [] with
      | error e => rfl
      | ok val =>
        obtain ⟨db', cnt, upd⟩ := val
        have h1 := updateLoopGo_clean table updates criteria false dfuel fuel
          entry.startPage db 0 [] hp hx
        rw [hlo] at h1
        simp only [exceptCleanB, Bool.and_eq_true] at h1 ⊢
        exact h1
    | some hintPid =>
      dsimp only [Option.isSome]
      cases hlo : updateLoopGo table updates criteria true dfuel fuel
          hintPid db 0 [] with
      | error e => rfl
      | ok val =>
        obtain ⟨db', cnt, upd⟩ := val
        have h1 := updateLoopGo_clean table updates criteria true dfuel fuel
          hintPid db 0 [] hp hx
        rw [hlo] at h1
        simp only [exceptCleanB, Bool.and_eq_true] at h1 ⊢
        exact h1

/-- C10: starting from a clean state (no enumerable `_pageId` field in
any heap page, index bucket, or inserted row), every mutation -
`_insertMany`, `_update` (with its nested overflow delete+insert), and
`_delete` - leaves the heap pages and index buckets clean, and both the
raw `_scanTable` and the full no-join SELECT pipeline return only objects
with no enumerable `_pageId` column: the hint is attached exclusively as
a non-enumerable property and stripped before serialization, so it never
escapes. -/
theorem pageId_hint_never_escapes
    (db : DB) (pages : List Page) (table : String) (entry : TableEntry)
    (dataArray : List JSObj) (updates : List (String × Value))
    (criteria : Option Criteria) (srt : Option SortSpec)
    (limit offsetC : Option Nat) (raw : Bool) (fuel ufuel dfuel : Nat)
    (hheap : heapCleanB db.pages = true)
    (hixs : ixsCleanB db.indexes = true)
    (hdata : dataArray.all objCleanB = true)
    (hpages : heapCleanB pages = true) :
    exceptCleanB (insertMany db table dataArray) = true ∧
    exceptCleanB (updateRun db table updates criteria ufuel dfuel) = true ∧
    exceptCleanB (deleteRun db table criteria fuel) = true ∧
    (scanTable pages entry criteria limit raw).all objCleanB = true ∧
    (selectNoJoins db.indexes pages table entry criteria srt limit
      offsetC).all objCleanB = true :=
  ⟨insertMany_clean db table dataArray hdata hheap hixs,
   updateRun_clean db table updates criteria ufuel dfuel hheap hixs,
   deleteRun_clean db table criteria fuel hheap hixs,
   scanTable_clean pages entry criteria limit raw hpages,
   selectNoJoins_clean db.indexes pages table entry criteria srt limit
     offsetC hpages hixs⟩

/-- The C10 theorem applied at a concrete tiny database, every
hypothesis discharged by evaluation. -/
theorem pageId_hint_never_escapes_witness :
    (heapCleanB dbC10.pages = true ∧ ixsCleanB dbC10.indexes = true ∧
      [rC10].all objCleanB = true) ∧
    (exceptCleanB (insertMany dbC10 "t" [rC10]) = true ∧
     exceptCleanB (updateRun dbC10 "t" [("v", .vStr "x")] none 2 2) = true ∧
     exceptCleanB (deleteRun dbC10 "t" none 2) = true ∧
     (scanTable dbC10.pages ⟨1, 1⟩ none none true).all objCleanB = true ∧
     (selectNoJoins dbC10.indexes dbC10.pages "t" ⟨1, 1⟩ none none none
       none).all objCleanB = true) :=
  ⟨⟨by decide, by decide, by decide⟩,
   pageId_hint_never_escapes dbC10 dbC10.pages "t" ⟨1, 1⟩ [rC10]
     [("v", .vStr "x")] none none none none true 2 2 2
     (by decide) (by decide) (by decide) (by decide)⟩

end SawitDB
